import Mathlib

/-!
# Shape-motion demo (`shapemotion.c`): renderer, motion engine, paddle contact, tick handler

A shallow embedding of `src/shape-motion-demo/shapemotion.c`.

* Memory is explicit: `World.layers` maps a layer address to its `Layer` record and
  `World.movs` maps a moving-layer address to its `MovLayer` record.  A chain (a
  `next`-linked list in C) is passed as the list of the addresses of its nodes, in
  chain order; no function of the program writes a `next` link.
* Calls into the LCD and buzzer drivers are recorded in the logs `World.lcd` and
  `World.buzzer`, oldest call first.
* Coordinates are mathematical integers; the two score counters are `unsigned int`
  of the 16-bit target and wrap modulo `2 ^ 16`.
* The running program is a sequence of steps (`Step`): an invocation of the interrupt
  handler or one round of the loop of `main`, each taken as atomic.
-/

namespace ShapeMotion

/-! ## Geometry (shape library interface) -/

/-- Modelled from the spec: the `Vec2` type of the shape library (its header is not under
src), a 2D integer vector; `ax0` is `axes[0]` (horizontal), `ax1` is `axes[1]` (vertical). -/
structure Vec2 where
  ax0 : Int
  ax1 : Int
deriving DecidableEq, Repr

/-- Read `v.axes[axis]` (`axis` is 0 or 1). -/
def Vec2.axes (v : Vec2) (axis : Nat) : Int :=
  if axis = 0 then v.ax0 else v.ax1

/-- Write `v.axes[axis] = val` (`axis` is 0 or 1). -/
def Vec2.setAxis (v : Vec2) (axis : Nat) (val : Int) : Vec2 :=
  if axis = 0 then { v with ax0 := val } else { v with ax1 := val }

/-- Modelled from the spec: `vec2Add` of the shape library (not under src), the
component-wise sum ("velocity is a 2D integer vector added to position"). -/
def vec2Add (v1 v2 : Vec2) : Vec2 :=
  ⟨v1.ax0 + v2.ax0, v1.ax1 + v2.ax1⟩

/-- Modelled from the spec: `vec2Sub` of the shape library (not under src), the
component-wise difference. -/
def vec2Sub (v1 v2 : Vec2) : Vec2 :=
  ⟨v1.ax0 - v2.ax0, v1.ax1 - v2.ax1⟩

/-- Modelled from the spec: the `Region` type of the shape library (not under src), a pair
of integer coordinates (top-left, bottom-right) with inclusive bounds. -/
structure Region where
  topLeft : Vec2
  botRight : Vec2
deriving DecidableEq, Repr

/-- Modelled from the spec: the `AbShape` type of the shape library (not under src), a
value over the capability set getBounds(position) and containsPoint(position, point).
In C these are the two function pointers called by `abShapeGetBounds` and
`abShapeCheck`. -/
structure AbShape where
  getBounds : Vec2 → Region
  check : Vec2 → Vec2 → Bool

/-- Modelled from the spec: `abRectGetBounds` (not under src): the bounding box of a
rectangle centred at `centerPos`, subtracting and adding the half-extents. -/
def abRectGetBounds (halfSize centerPos : Vec2) : Region :=
  ⟨vec2Sub centerPos halfSize, vec2Add centerPos halfSize⟩

/-- Modelled from the spec: `abRectCheck` (not under src): membership by half-extent
comparison, inclusive on every side. -/
def abRectCheck (halfSize centerPos pixel : Vec2) : Bool :=
  let bounds := abRectGetBounds halfSize centerPos
  decide (bounds.topLeft.ax0 ≤ pixel.ax0 ∧ pixel.ax0 ≤ bounds.botRight.ax0 ∧
    bounds.topLeft.ax1 ≤ pixel.ax1 ∧ pixel.ax1 ≤ bounds.botRight.ax1)

/-- An `AbRect` with the given half-extents, as in
`AbRect paddle = {abRectGetBounds, abRectCheck, {20,3}}`. -/
def abRect (halfSize : Vec2) : AbShape :=
  ⟨abRectGetBounds halfSize, abRectCheck halfSize⟩

/-- Modelled from the spec: bounds of a circle (not under src): centre minus and plus
the radius on both axes. -/
def abCircleGetBounds (radius : Int) (centerPos : Vec2) : Region :=
  ⟨vec2Sub centerPos ⟨radius, radius⟩, vec2Add centerPos ⟨radius, radius⟩⟩

/-- Modelled from the spec: membership in a circle (not under src): squared distance
against the squared radius, no square roots. -/
def abCircleCheck (radius : Int) (centerPos pixel : Vec2) : Bool :=
  let rel := vec2Sub pixel centerPos
  decide (rel.ax0 * rel.ax0 + rel.ax1 * rel.ax1 ≤ radius * radius)

/-- A circle shape of the given radius. -/
def abCircle (radius : Int) : AbShape :=
  ⟨abCircleGetBounds radius, abCircleCheck radius⟩

/-- The paddle shape: `AbRect paddle = {abRectGetBounds, abRectCheck, {20,3}}`. -/
def paddle : AbShape :=
  abRect ⟨20, 3⟩

/-- Modelled from the spec: `regionUnion` of the shape library (not under src): the
smallest region holding both arguments. -/
def regionUnion (r1 r2 : Region) : Region :=
  ⟨⟨min r1.topLeft.ax0 r2.topLeft.ax0, min r1.topLeft.ax1 r2.topLeft.ax1⟩,
   ⟨max r1.botRight.ax0 r2.botRight.ax0, max r1.botRight.ax1 r2.botRight.ax1⟩⟩

/-! ## Layers, moving layers and the program state -/

/-- The `Layer` record of the shape library (its header is not under src) with the
fields the program initialises and uses: shape, committed position `pos`, previous
position `posLast`, pending position `posNext` and colour.  The `next` link is the order
of the chain list. -/
structure Layer where
  abShape : AbShape
  pos : Vec2
  posLast : Vec2
  posNext : Vec2
  color : Nat

/-- The `MovLayer` record: `typedef struct MovLayer_s { Layer *layer; Vec2 velocity;
struct MovLayer_s *next; }`; `layer` is the address of the referenced layer. -/
structure MovLayer where
  layer : Nat
  velocity : Vec2
deriving DecidableEq, Repr

/-- Modelled from the spec: `layerGetBounds` of the shape library (not under src): the
union of the shape's bounds at `posLast` and at `pos`. -/
def layerGetBounds (l : Layer) : Region :=
  regionUnion (l.abShape.getBounds l.posLast) (l.abShape.getBounds l.pos)

/-- One call into the LCD driver.  The text of `drawString5x7` is `none` when it was read
from outside the table it is taken from. -/
inductive LcdCall where
  | setArea (colMin rowMin colMax rowMax : Int)
  | writeColor (color : Nat)
  | clearScreen (color : Nat)
  | drawString5x7 (col row : Nat) (text : Option String) (fg bg : Nat)
deriving DecidableEq, Repr

/-- The whole mutable state of the program together with the logs of driver calls. -/
structure World where
  layers : Nat → Layer
  movs : Nat → MovLayer
  p1Score : Nat
  p2Score : Nat
  bgColor : Nat
  redrawScreen : Int
  fieldFence : Region
  count : Int
  greenLed : Bool
  lcd : List LcdCall
  buzzer : List Nat

/-- Store `l` at layer address `a`. -/
def World.setLayer (w : World) (a : Nat) (l : Layer) : World :=
  { w with layers := fun b => if b = a then l else w.layers b }

/-- Store `m` at moving-layer address `a`. -/
def World.setMov (w : World) (a : Nat) (m : MovLayer) : World :=
  { w with movs := fun b => if b = a then m else w.movs b }

/-- The layer a moving layer refers to: `ml->layer`. -/
def World.layerOf (w : World) (ml : Nat) : Layer :=
  w.layers (w.movs ml).layer

/-- Driver call `lcd_setArea`. -/
def lcd_setArea (colMin rowMin colMax rowMax : Int) (w : World) : World :=
  { w with lcd := w.lcd ++ [LcdCall.setArea colMin rowMin colMax rowMax] }

/-- Driver call `lcd_writeColor`. -/
def lcd_writeColor (color : Nat) (w : World) : World :=
  { w with lcd := w.lcd ++ [LcdCall.writeColor color] }

/-- Driver call `clearScreen`. -/
def clearScreen (color : Nat) (w : World) : World :=
  { w with lcd := w.lcd ++ [LcdCall.clearScreen color] }

/-- Driver call `drawString5x7`. -/
def drawString5x7 (col row : Nat) (text : Option String) (fg bg : Nat) (w : World) : World :=
  { w with lcd := w.lcd ++ [LcdCall.drawString5x7 col row text fg bg] }

/-- Driver call `buzzer_set_period`. -/
def buzzer_set_period (period : Nat) (w : World) : World :=
  { w with buzzer := w.buzzer ++ [period] }

/-- The C loop `for (i = lo; i <= hi; i++) body`, given its trip count. -/
def forLoop {σ : Type} (body : Int → σ → σ) : Nat → Int → σ → σ
  | 0, _, s => s
  | n + 1, i, s => forLoop body n (i + 1) (body i s)

/-- The C loop `for (i = lo; i <= hi; i++) body`: it runs `hi + 1 - lo` times when
`lo ≤ hi` and not at all otherwise. -/
def forRange {σ : Type} (lo hi : Int) (body : Int → σ → σ) (s : σ) : σ :=
  forLoop body (hi + 1 - lo).toNat lo s

/-! ## `movLayerDraw` -/

/-- First loop of `movLayerDraw`: for each moving layer, `l->posLast = l->pos;
l->pos = l->posNext`. -/
def swapPositions : List Nat → World → World
  | [], w => w
  | movLayer :: rest, w =>
    let a := (w.movs movLayer).layer
    let l := w.layers a
    let l := { l with posLast := l.pos }
    let l := { l with pos := l.posNext }
    swapPositions rest (w.setLayer a l)

/-- Innermost loop of `movLayerDraw`: probe all layers in order, starting from `color`;
the first layer whose shape contains the pixel sets the colour and ends the loop. -/
def probeLayers (w : World) (pixelPos : Vec2) : List Nat → Nat → Nat
  | [], color => color
  | probeLayer :: rest, color =>
    if (w.layers probeLayer).abShape.check (w.layers probeLayer).pos pixelPos then
      (w.layers probeLayer).color
    else probeLayers w pixelPos rest color

/-- Body of the `col` loop of `movLayerDraw`: colour of the pixel, then `lcd_writeColor`. -/
def drawPixel (layers : List Nat) (row col : Int) (w : World) : World :=
  lcd_writeColor (probeLayers w ⟨col, row⟩ layers w.bgColor) w

/-- Body of the second loop of `movLayerDraw` for one moving layer. -/
def drawMovLayer (layers : List Nat) (movLayer : Nat) (w : World) : World :=
  let bounds := layerGetBounds (w.layers (w.movs movLayer).layer)
  let w := lcd_setArea bounds.topLeft.ax0 bounds.topLeft.ax1
    bounds.botRight.ax0 bounds.botRight.ax1 w
  forRange bounds.topLeft.ax1 bounds.botRight.ax1
    (fun row w => forRange bounds.topLeft.ax0 bounds.botRight.ax0 (drawPixel layers row) w) w

/-- Second loop of `movLayerDraw`: redraw the window of each moving layer. -/
def drawMovLayers (layers : List Nat) : List Nat → World → World
  | [], w => w
  | movLayer :: rest, w => drawMovLayers layers rest (drawMovLayer layers movLayer w)

/-- The renderer `movLayerDraw(movLayers, layers)`. -/
def movLayerDraw (movLayers layers : List Nat) (w : World) : World :=
  drawMovLayers layers movLayers (swapPositions movLayers w)

/-! ## `mlAdvance` -/

/-- The increment `x++` of an `unsigned int` counter of the 16-bit target. -/
def uintIncr (x : Nat) : Nat :=
  (x + 1) % 65536

/-- Body of the `axis` loop of `mlAdvance` for the moving layer at address `ml`.  The
state is the world and the local `newPos`; `shapeBoundary` was computed before the loop
and is not recomputed. -/
def mlAdvanceAxis (ml : Nat) (fence shapeBoundary : Region) (st : World × Vec2)
    (axis : Nat) : World × Vec2 :=
  let w := st.1
  let newPos := st.2
  if shapeBoundary.topLeft.axes axis < fence.topLeft.axes axis ∨
      shapeBoundary.botRight.axes axis > fence.botRight.axes axis then
    let w := if shapeBoundary.topLeft.axes 1 < fence.topLeft.axes axis then
      { w with p1Score := uintIncr w.p1Score } else w
    let w := if shapeBoundary.botRight.axes 1 > fence.botRight.axes axis then
      { w with p2Score := uintIncr w.p2Score } else w
    let velocity := -(w.movs ml).velocity.axes axis
    let w := w.setMov ml { w.movs ml with velocity := (w.movs ml).velocity.setAxis axis velocity }
    (w, newPos.setAxis axis (newPos.axes axis + 2 * velocity))
  else (w, newPos)

/-- Body of the outer loop of `mlAdvance` for the moving layer at address `ml`. -/
def mlAdvanceOne (ml : Nat) (fence : Region) (w : World) : World :=
  let newPos := vec2Add (w.layerOf ml).posNext (w.movs ml).velocity
  let shapeBoundary := (w.layerOf ml).abShape.getBounds newPos
  let st := [0, 1].foldl (mlAdvanceAxis ml fence shapeBoundary) (w, newPos)
  st.1.setLayer (st.1.movs ml).layer { st.1.layerOf ml with posNext := st.2 }

/-- The motion engine `mlAdvance(ml, fence)` over the chain `ml`. -/
def mlAdvance : List Nat → Region → World → World
  | [], _, w => w
  | ml :: rest, fence, w => mlAdvance rest fence (mlAdvanceOne ml fence w)

/-! ## `bouncePaddle` -/

/-- The function `bouncePaddle(ball, paddle)` together with the final value of its local
`xy`, which the C function drops on return. -/
def bouncePaddleLocals (ball paddle : Nat) (w : World) : World × Vec2 :=
  let _b1 := (w.layerOf paddle).abShape.getBounds (w.layerOf paddle).posNext
  let xy := vec2Add (w.layerOf ball).pos (w.movs ball).velocity
  let b2 := (w.layerOf ball).abShape.getBounds xy
  if (w.layerOf paddle).abShape.check (w.layerOf paddle).pos b2.topLeft ||
      (w.layerOf paddle).abShape.check (w.layerOf paddle).pos b2.botRight then
    let velocity := -(w.movs ball).velocity.axes 1
    let w := w.setMov ball
      { w.movs ball with velocity := (w.movs ball).velocity.setAxis 1 velocity }
    let xy := xy.setAxis 1 (xy.axes 1 + 2 * velocity)
    (buzzer_set_period 1500 w, xy)
  else (w, xy)

/-- The paddle contact check `bouncePaddle(ball, paddle)`. -/
def bouncePaddle (ball paddle : Nat) (w : World) : World :=
  (bouncePaddleLocals ball paddle w).1

/-! ## `wdt_c_handler` -/

/-- Address of `ml0`. -/
def ML0 : Nat := 0

/-- Address of `ml1`. -/
def ML1 : Nat := 1

/-- Address of `ml3`. -/
def ML3 : Nat := 3

/-- Colour constant of the LCD library header (not under src); no result depends on
its numeral. -/
def COLOR_BLUE : Nat := 0xf800

/-- Colour constant of the LCD library header (not under src); no result depends on
its numeral. -/
def COLOR_RED : Nat := 0x001f

/-- Colour constant of the LCD library header (not under src); no result depends on
its numeral. -/
def COLOR_WHITE : Nat := 0xffff

/-- The table `char dir[] = {'0','1','2','3'}`. -/
def dir : List Char :=
  ['0', '1', '2', '3']

/-- The text `char tot[] = {dir[p1Score]+dir[p2Score]}`; `none` when an index is outside
the table. -/
def tot (p1Score p2Score : Nat) : Option String :=
  match dir[p1Score]?, dir[p2Score]? with
  | some a, some b => some (String.singleton (Char.ofNat (a.toNat + b.toNat)))
  | _, _ => none

/-- The entry `str[i] = (switches & (1<<i)) ? 0 : 1`. -/
def str (switches i : Nat) : Bool :=
  if switches &&& (1 <<< i) ≠ 0 then false else true

/-- The assignment `ml.velocity.axes[axis] = val` to the moving layer at address `ml`. -/
def setVelocityAxis (ml axis : Nat) (val : Int) (w : World) : World :=
  w.setMov ml { w.movs ml with velocity := (w.movs ml).velocity.setAxis axis val }

/-- The six `if` statements of `wdt_c_handler` that map `str` to the paddle velocities,
in source order. -/
def applySwitches (switches : Nat) (w : World) : World :=
  let w := if str switches 0 then setVelocityAxis ML0 0 (-3) (setVelocityAxis ML0 1 0 w) else w
  let w := if str switches 1 then setVelocityAxis ML0 0 3 (setVelocityAxis ML0 1 0 w) else w
  let w := if str switches 2 then setVelocityAxis ML1 0 (-3) (setVelocityAxis ML1 1 0 w) else w
  let w := if str switches 3 then setVelocityAxis ML1 0 3 (setVelocityAxis ML1 1 0 w) else w
  let w := if !str switches 0 && !str switches 1 then
    setVelocityAxis ML0 0 0 (setVelocityAxis ML0 1 0 w) else w
  if !str switches 2 && !str switches 3 then
    setVelocityAxis ML1 0 0 (setVelocityAxis ML1 1 0 w) else w

/-- The body of `if (count == 15)` in `wdt_c_handler`; `switches` is the value returned
by `p2sw_read()`. -/
def tickBody (switches : Nat) (w : World) : World :=
  let w := if w.p1Score > 2 ∨ w.p2Score > 2 then
    drawString5x7 20 60 (some "Point. Game. Set. Match.") COLOR_RED COLOR_WHITE
      (clearScreen COLOR_BLUE w)
    else w
  let w := { w with redrawScreen := 1 }
  let w := mlAdvance [ML0, ML1, ML3] w.fieldFence w
  let w := drawString5x7 60 150 (tot w.p1Score w.p2Score) COLOR_RED COLOR_WHITE w
  let w := bouncePaddle ML3 ML1 w
  let w := bouncePaddle ML3 ML0 w
  let w := applySwitches switches w
  { w with count := 0 }

/-- The watchdog timer interrupt handler; `switches` is the value `p2sw_read()` returns
if the handler reads the switches. -/
def wdt_c_handler (switches : Nat) (w : World) : World :=
  let w := { w with greenLed := true }
  let w := { w with count := w.count + 1 }
  let w := buzzer_set_period 0 w
  let w := if w.count = 15 then tickBody switches w else w
  { w with greenLed := false }

/-! ## `main`: initial state and render pass -/

/-- Address of `layer0`. -/
def LAYER0 : Nat := 0

/-- Address of `layer1`. -/
def LAYER1 : Nat := 1

/-- Address of `fieldLayer`. -/
def FIELDLAYER : Nat := 2

/-- Address of `layer3`. -/
def LAYER3 : Nat := 3

/-- A layer at rest at `pos`, as `layerInit` leaves it (`posLast = posNext = pos`). -/
def restLayer (shape : AbShape) (pos : Vec2) (color : Nat) : Layer :=
  ⟨shape, pos, pos, pos, color⟩

/-- Colour constant of the LCD library header (not under src); no result depends on
its numeral. -/
def COLOR_GREEN : Nat := 0x07e0

/-- Colour constant of the LCD library header (not under src); no result depends on
its numeral. -/
def COLOR_BLACK : Nat := 0x0000

/-- Modelled from the spec: membership in a rectangle outline (not under src): true only
on the one-pixel border band of the rectangle's bounds. -/
def abRectOutlineCheck (halfSize centerPos pixel : Vec2) : Bool :=
  let bounds := abRectGetBounds halfSize centerPos
  abRectCheck halfSize centerPos pixel &&
    decide (pixel.ax0 = bounds.topLeft.ax0 ∨ pixel.ax0 = bounds.botRight.ax0 ∨
      pixel.ax1 = bounds.topLeft.ax1 ∨ pixel.ax1 = bounds.botRight.ax1)

/-- The playing field outline `AbRectOutline fieldOutline = {abRectOutlineGetBounds,
abRectOutlineCheck, {screenWidth/2 - 10, screenHeight/2 - 10}}`; its bounds are those of
the rectangle.  `screenWidth` and `screenHeight` are constants of the LCD library header,
which is not under src. -/
def fieldOutline (screenWidth screenHeight : Int) : AbShape :=
  ⟨abRectGetBounds ⟨screenWidth / 2 - 10, screenHeight / 2 - 10⟩,
   abRectOutlineCheck ⟨screenWidth / 2 - 10, screenHeight / 2 - 10⟩⟩

/-- The state when `main` enters its loop: the initialisers of the four layers, of the
three moving layers and of the globals, after `layerInit(&layer0)` (shape library, not
under src; it sets `posLast = posNext = pos` on every layer of the chain) and
`layerGetBounds(&fieldLayer, &fieldFence)`.  The initial full-screen drawing is not
recorded in the log.  `screenWidth`, `screenHeight` and the shape `circle4` come from
library headers that are not under src. -/
def initWorld (screenWidth screenHeight : Int) (circle4 : AbShape) : World where
  layers := fun a =>
    if a = LAYER0 then
      restLayer paddle ⟨screenWidth / 2, screenHeight / 2 + 64⟩ COLOR_GREEN
    else if a = LAYER1 then
      restLayer paddle ⟨screenWidth / 2, screenHeight / 2 - 64⟩ COLOR_GREEN
    else if a = FIELDLAYER then
      restLayer (fieldOutline screenWidth screenHeight)
        ⟨screenWidth / 2, screenHeight / 2⟩ COLOR_BLACK
    else restLayer circle4 ⟨screenWidth / 2 + 10, screenHeight / 2 + 5⟩ COLOR_RED
  movs := fun m =>
    if m = ML0 then ⟨LAYER0, ⟨0, 0⟩⟩ else if m = ML1 then ⟨LAYER1, ⟨0, 0⟩⟩
    else ⟨LAYER3, ⟨3, 3⟩⟩
  p1Score := 0
  p2Score := 0
  bgColor := COLOR_BLUE
  redrawScreen := 1
  fieldFence := layerGetBounds
    (restLayer (fieldOutline screenWidth screenHeight)
      ⟨screenWidth / 2, screenHeight / 2⟩ COLOR_BLACK)
  count := 0
  greenLed := true
  lcd := []
  buzzer := []

/-- One round of the `for(;;)` loop of `main`: with no redraw pending the CPU is switched
off (green LED off) until the next interrupt; otherwise the LED is switched on, the flag
is cleared and `movLayerDraw(&ml0, &layer0)` runs. -/
def renderPass (w : World) : World :=
  if w.redrawScreen = 0 then { w with greenLed := false }
  else movLayerDraw [ML0, ML1, ML3] [LAYER0, LAYER1, FIELDLAYER, LAYER3]
    { w with greenLed := true, redrawScreen := 0 }

/-- One step of the running program: an invocation of the interrupt handler with the
value the switches return, or one round of the main loop.  The handler and the render
pass are taken as atomic steps. -/
inductive Step where
  | tick (switches : Nat)
  | render
deriving DecidableEq, Repr

/-- Run one step. -/
def step (w : World) : Step → World
  | Step.tick switches => wdt_c_handler switches w
  | Step.render => renderPass w

/-- Run a sequence of steps, first step first. -/
def run (steps : List Step) (w : World) : World :=
  steps.foldl step w

/-- The states the program reaches from `w0` by any sequence of handler invocations and
render passes. -/
def Reachable (w0 w : World) : Prop :=
  ∃ steps : List Step, run steps w0 = w

/-! ## Specification-side definitions -/

/-- The integers `lo, lo + 1, ..., hi` in increasing order (empty when `hi < lo`). -/
def intRange (lo hi : Int) : List Int :=
  (List.range (hi + 1 - lo).toNat).map (fun (k : Nat) => lo + (k : Int))

/-- The pixels of a window in row-major order, from top-left to bottom-right. -/
def windowPixels (b : Region) : List Vec2 :=
  (intRange b.topLeft.ax1 b.botRight.ax1).flatMap
    (fun row => (intRange b.topLeft.ax0 b.botRight.ax0).map (fun col => ⟨col, row⟩))

/-- The colour of the first layer in chain order whose shape contains `p` at the layer's
committed `pos`, the background colour if there is none. -/
def firstLayerColor (w : World) (layers : List Nat) (p : Vec2) : Nat :=
  match layers.find? (fun a => (w.layers a).abShape.check (w.layers a).pos p) with
  | some a => (w.layers a).color
  | none => w.bgColor

/-- The shape's bounds at the position `mlAdvance` tries first for the moving layer at
`ml`: the layer's `posNext` plus the velocity. -/
def candidateBounds (w : World) (ml : Nat) : Region :=
  (w.layerOf ml).abShape.getBounds (vec2Add (w.layerOf ml).posNext (w.movs ml).velocity)

/-- The region `shape` exceeds the fence on `axis`: top-left below the fence's top-left
or bottom-right above the fence's bottom-right. -/
def exceedsFence (b fence : Region) (axis : Nat) : Prop :=
  b.topLeft.axes axis < fence.topLeft.axes axis ∨ b.botRight.axes axis > fence.botRight.axes axis

instance (b fence : Region) (axis : Nat) : Decidable (exceedsFence b fence axis) := by
  unfold exceedsFence; infer_instance

/-- The driver calls `movLayerDraw` must issue for the moving layer at `m` when the
compositing is right: the window, then one colour per pixel of the window in row-major
order, each the colour of the first layer containing the pixel. -/
def windowCalls (w : World) (layers : List Nat) (m : Nat) : List LcdCall :=
  let b := layerGetBounds (w.layerOf m)
  LcdCall.setArea b.topLeft.ax0 b.topLeft.ax1 b.botRight.ax0 b.botRight.ax1 ::
    (windowPixels b).map (fun p => LcdCall.writeColor (firstLayerColor w layers p))

/-- If the shape of one layer contains `p` at the layer's committed position. -/
def layerContains (w : World) (a : Nat) (p : Vec2) : Bool :=
  (w.layers a).abShape.check (w.layers a).pos p

/-- The velocity after the per-axis resolution of `mlAdvance`, as the reflection law
states it: each component is negated if the bounds exceed the fence on its axis. -/
def reflectVelocity (b fence : Region) (v : Vec2) : Vec2 :=
  ⟨if exceedsFence b fence 0 then -v.ax0 else v.ax0,
   if exceedsFence b fence 1 then -v.ax1 else v.ax1⟩

/-- The position after the per-axis resolution of `mlAdvance`: each component of the
candidate is corrected by twice the reflected velocity if the bounds exceed the fence on
its axis. -/
def bouncePosition (b fence : Region) (newPos v : Vec2) : Vec2 :=
  ⟨if exceedsFence b fence 0 then newPos.ax0 + 2 * -v.ax0 else newPos.ax0,
   if exceedsFence b fence 1 then newPos.ax1 + 2 * -v.ax1 else newPos.ax1⟩

/-- The fields no function of the motion engine writes. -/
def World.others (w : World) : Nat × Int × Region × Int × Bool × List LcdCall × List Nat :=
  (w.bgColor, w.redrawScreen, w.fieldFence, w.count, w.greenLed, w.lcd, w.buzzer)

/-- A sampled corner of the ball's prospective bounds (the ball shape's bounds at
`pos` + velocity) lies inside the paddle's shape placed at the paddle's committed `pos`. -/
def cornerContact (w : World) (ball paddle : Nat) : Bool :=
  layerContains w (w.movs paddle).layer ((w.layerOf ball).abShape.getBounds
      (vec2Add (w.layerOf ball).pos (w.movs ball).velocity)).topLeft ||
    layerContains w (w.movs paddle).layer ((w.layerOf ball).abShape.getBounds
      (vec2Add (w.layerOf ball).pos (w.movs ball).velocity)).botRight

/-- Two regions with inclusive bounds share a point. -/
def regionsOverlap (r1 r2 : Region) : Prop :=
  r1.topLeft.ax0 ≤ r2.botRight.ax0 ∧ r2.topLeft.ax0 ≤ r1.botRight.ax0 ∧
    r1.topLeft.ax1 ≤ r2.botRight.ax1 ∧ r2.topLeft.ax1 ≤ r1.botRight.ax1

instance (r1 r2 : Region) : Decidable (regionsOverlap r1 r2) := by
  unfold regionsOverlap; infer_instance

/-- Control line `i` is asserted: bit `i` of the mask read from the switches is 0
(active-low). -/
def lineAsserted (switches i : Nat) : Prop :=
  switches.testBit i = false

instance (switches i : Nat) : Decidable (lineAsserted switches i) := by
  unfold lineAsserted; infer_instance

/-- The point `p` lies inside the region `b` (inclusive bounds). -/
def Region.contains (b : Region) (p : Vec2) : Prop :=
  b.topLeft.ax0 ≤ p.ax0 ∧ p.ax0 ≤ b.botRight.ax0 ∧
    b.topLeft.ax1 ≤ p.ax1 ∧ p.ax1 ≤ b.botRight.ax1

instance (b : Region) (p : Vec2) : Decidable (b.contains p) := by
  unfold Region.contains; infer_instance

/-- Row-major order of pixels: `p` comes before `q` if it is on an earlier row, or on the
same row in an earlier column. -/
def rowMajorLt (p q : Vec2) : Prop :=
  p.ax1 < q.ax1 ∨ (p.ax1 = q.ax1 ∧ p.ax0 < q.ax0)

/-- Modelled from the spec: the display surface (driver not under src): `lcd_setArea`
declares a window and `lcd_writeColor` writes the pixels of the declared window one after
the other in row-major order.  The result lists the pixels written through
`lcd_writeColor` with their colours; `pending` are the pixels of the current window not
yet written.  A write after the last pixel of the window is not listed. -/
def lcdPixelWrites : List LcdCall → List Vec2 → List (Vec2 × Nat)
  | [], _ => []
  | LcdCall.setArea colMin rowMin colMax rowMax :: rest, _ =>
    lcdPixelWrites rest (windowPixels ⟨⟨colMin, rowMin⟩, ⟨colMax, rowMax⟩⟩)
  | LcdCall.writeColor color :: rest, p :: pending => (p, color) :: lcdPixelWrites rest pending
  | LcdCall.writeColor _ :: rest, [] => lcdPixelWrites rest []
  | LcdCall.clearScreen _ :: rest, pending => lcdPixelWrites rest pending
  | LcdCall.drawString5x7 _ _ _ _ _ :: rest, pending => lcdPixelWrites rest pending

/-- The effect of one swap step of `movLayerDraw` on a layer record:
`l->posLast = l->pos; l->pos = l->posNext`. -/
def swapLayer (l : Layer) : Layer :=
  { l with posLast := l.pos, pos := l.posNext }

/-- The number of handler invocations among the steps. -/
def numTicks : List Step → Nat
  | [] => 0
  | Step.tick _ :: rest => numTicks rest + 1
  | Step.render :: rest => numTicks rest

/-- The part of the state the game logic reads and writes: layer records, moving-layer
records and the two scores. -/
def World.game (w : World) : (Nat → Layer) × (Nat → MovLayer) × Nat × Nat :=
  (w.layers, w.movs, w.p1Score, w.p2Score)

/-- The game logic of one acting tick without the end-of-match check and without any
drawing: `mlAdvance` on the full chain, `bouncePaddle` for both paddles, the switch
mapping. -/
def tickGame (switches : Nat) (w : World) : World :=
  applySwitches switches
    (bouncePaddle ML3 ML0 (bouncePaddle ML3 ML1 (mlAdvance [ML0, ML1, ML3] w.fieldFence w)))

/-- The driver calls of the end-of-match overlay: `clearScreen` followed by the match
message. -/
def overlayCalls : List LcdCall :=
  [LcdCall.clearScreen COLOR_BLUE,
   LcdCall.drawString5x7 20 60 (some "Point. Game. Set. Match.") COLOR_RED COLOR_WHITE]

/-- The state of `tickBody` after the end-of-match check and `redrawScreen = 1`. -/
def tickStart (w : World) : World :=
  { (if w.p1Score > 2 ∨ w.p2Score > 2 then
      drawString5x7 20 60 (some "Point. Game. Set. Match.") COLOR_RED COLOR_WHITE
        (clearScreen COLOR_BLUE w)
    else w) with redrawScreen := 1 }

/-- The part of the state that decides how the game goes on: the game records and
scores, the tick counter, the redraw flag and the fence. -/
def World.core (w : World) :
    ((Nat → Layer) × (Nat → MovLayer) × Nat × Nat) × Int × Int × Region :=
  (w.game, w.count, w.redrawScreen, w.fieldFence)

/-- One round of the main loop without the drawing: the redraw flag is cleared and the
positions of the moving layers are swapped. -/
def renderCore (w : World) : World :=
  if w.redrawScreen = 0 then w
  else swapPositions [ML0, ML1, ML3] { w with redrawScreen := 0 }

/-- One step of the program without the drawing of the render pass. -/
def stepCore (w : World) : Step → World
  | Step.tick switches => wdt_c_handler switches w
  | Step.render => renderCore w

/-- A sequence of steps without the drawing of the render passes. -/
def runCore (steps : List Step) (w : World) : World :=
  steps.foldl stepCore w

/-- The paddles keep their course: `ml0`, `ml1` and `ml3` refer to `layer0`, `layer1` and
`layer3`, the vertical velocity of both paddles is 0 and the vertical coordinate of the
pending position of the paddle layers is `y0` and `y1`. -/
def paddleInvariant (y0 y1 : Int) (w : World) : Prop :=
  (w.movs ML0).layer = LAYER0 ∧ (w.movs ML1).layer = LAYER1 ∧ (w.movs ML3).layer = LAYER3 ∧
    (w.movs ML0).velocity.ax1 = 0 ∧ (w.movs ML1).velocity.ax1 = 0 ∧
    (w.layers LAYER0).posNext.ax1 = y0 ∧ (w.layers LAYER1).posNext.ax1 = y1

/-! ## Concrete states -/

/-- The fence of a playing field with corners (10,10) and (118,150). -/
def sampleFence : Region :=
  ⟨⟨10, 10⟩, ⟨118, 150⟩⟩

/-- A state with the two paddles of the program at layer addresses 0 and 1, referenced by
`ml0` and `ml1` with velocity (0,0), and a ball of radius 4 at layer address 3,
referenced by `ml3`; the ball's `pos`, `posNext` and velocity are the arguments.  Every
address the program does not use holds a copy of the ball's record.  The fence is
`sampleFence`, both scores are 0 and the tick counter is 14. -/
def sampleWorld (ballPos ballPosNext ballVelocity : Vec2) : World where
  layers := fun a =>
    if a = 0 then restLayer paddle ⟨64, 144⟩ 2
    else if a = 1 then restLayer paddle ⟨64, 16⟩ 2
    else ⟨abCircle 4, ballPos, ballPos, ballPosNext, 1⟩
  movs := fun m =>
    if m = ML0 then ⟨0, ⟨0, 0⟩⟩ else if m = ML1 then ⟨1, ⟨0, 0⟩⟩ else ⟨3, ballVelocity⟩
  p1Score := 0
  p2Score := 0
  bgColor := COLOR_BLUE
  redrawScreen := 0
  fieldFence := sampleFence
  count := 14
  greenLed := false
  lcd := []
  buzzer := []

/-- A state whose only moving layer of interest, `ml3`, refers to a rectangle of half-size
(4,80) pending at (64,80) with velocity (0,3): taller than the fence `sampleFence`. -/
def oversizedWorld : World where
  layers := fun _ => restLayer (abRect ⟨4, 80⟩) ⟨64, 80⟩ 1
  movs := fun _ => ⟨3, ⟨0, 3⟩⟩
  p1Score := 0
  p2Score := 0
  bgColor := COLOR_BLUE
  redrawScreen := 0
  fieldFence := sampleFence
  count := 14
  greenLed := false
  lcd := []
  buzzer := []

/-- A state past the end of the match: `p1Score` is 3, the tick counter is 14, and the
ball of radius 4 rests at (64,14), touching the top edge of the fence, with velocity
(0,-3). -/
def matchOverWorld : World :=
  { sampleWorld ⟨64, 14⟩ ⟨64, 14⟩ ⟨0, -3⟩ with p1Score := 3 }

/-- A run of the program with the switch mask 0b1110 (only line 0 asserted) held: 16
rounds of 15 handler invocations followed by a render pass, then 14 more invocations. -/
def scoreRunSteps : List Step :=
  (List.replicate 16 (List.replicate 15 (Step.tick 0b1110) ++ [Step.render])).flatten ++
    List.replicate 14 (Step.tick 0b1110)

/-- The state the program reaches by `scoreRunSteps` from its initial state on the
128 x 160 screen with a ball of radius 4. -/
def scoreRunState : World :=
  run scoreRunSteps (initWorld 128 160 (abCircle 4))

/-! ## Theorems: renderer -/

theorem probeLayers_eq_firstLayerColor (w : World) (p : Vec2) (layers : List Nat) :
    probeLayers w p layers w.bgColor = firstLayerColor w layers p := by
  induction layers with
  | nil => rfl
  | cons a rest ih =>
    unfold firstLayerColor at ih ⊢
    by_cases h : (w.layers a).abShape.check (w.layers a).pos p = true
    · simp [probeLayers, List.find?_cons, h]
    · simp [probeLayers, List.find?_cons, h, ih]

theorem firstLayerColor_lcd (w : World) (calls : List LcdCall) (layers : List Nat) (p : Vec2) :
    firstLayerColor { w with lcd := calls } layers p = firstLayerColor w layers p := rfl

theorem intRange_succ (lo hi : Int) (h : lo ≤ hi) :
    intRange lo hi = lo :: intRange (lo + 1) hi := by
  unfold intRange
  obtain ⟨n, hn⟩ : ∃ n : Nat, (hi + 1 - lo).toNat = n + 1 := ⟨(hi - lo).toNat, by omega⟩
  have hn2 : (hi + 1 - (lo + 1)).toNat = n := by omega
  rw [hn, hn2, List.range_succ_eq_map, List.map_cons, List.map_map]
  congr 1
  · simp
  · apply List.map_congr_left
    intro k _
    simp only [Function.comp_apply, Nat.succ_eq_add_one, Nat.cast_add, Nat.cast_one]
    ring

theorem intRange_empty (lo hi : Int) (h : hi < lo) : intRange lo hi = [] := by
  unfold intRange
  have : (hi + 1 - lo).toNat = 0 := by omega
  rw [this]; rfl

theorem mem_intRange (lo hi x : Int) : x ∈ intRange lo hi ↔ lo ≤ x ∧ x ≤ hi := by
  unfold intRange
  simp only [List.mem_map, List.mem_range]
  constructor
  · rintro ⟨k, hk, rfl⟩
    omega
  · rintro ⟨h1, h2⟩
    exact ⟨(x - lo).toNat, by omega, by omega⟩

theorem forLoop_eq_foldl {σ : Type} (body : Int → σ → σ) (n : Nat) (lo hi : Int)
    (hn : n = (hi + 1 - lo).toNat) (s : σ) :
    forLoop body n lo s = (intRange lo hi).foldl (fun s i => body i s) s := by
  induction n generalizing lo s with
  | zero =>
    rw [intRange_empty lo hi (by omega)]; rfl
  | succ n ih =>
    rw [intRange_succ lo hi (by omega)]
    simp only [forLoop, List.foldl_cons]
    exact ih (lo + 1) (by omega) _

theorem forRange_eq_foldl {σ : Type} (body : Int → σ → σ) (lo hi : Int) (s : σ) :
    forRange lo hi body s = (intRange lo hi).foldl (fun s i => body i s) s :=
  forLoop_eq_foldl body _ lo hi rfl s

theorem foldl_drawPixel (layers : List Nat) (row : Int) (cols : List Int) (w : World) :
    cols.foldl (fun s col => drawPixel layers row col s) w =
      { w with
        lcd := w.lcd ++
          cols.map (fun col => LcdCall.writeColor (firstLayerColor w layers ⟨col, row⟩)) } := by
  induction cols generalizing w with
  | nil => simp
  | cons c rest ih =>
    simp only [List.foldl_cons, ih, List.map_cons]
    simp [drawPixel, lcd_writeColor, probeLayers_eq_firstLayerColor, firstLayerColor_lcd]

theorem foldl_drawRow (layers : List Nat) (x0 x1 : Int) (rows : List Int) (w : World) :
    rows.foldl (fun s row => forRange x0 x1 (drawPixel layers row) s) w =
      { w with
        lcd := w.lcd ++
          rows.flatMap (fun row => (intRange x0 x1).map
            (fun col => LcdCall.writeColor (firstLayerColor w layers ⟨col, row⟩))) } := by
  induction rows generalizing w with
  | nil => simp
  | cons r rest ih =>
    rw [List.foldl_cons, ih, forRange_eq_foldl, foldl_drawPixel]
    simp only [firstLayerColor_lcd, List.flatMap_cons, List.append_assoc]

theorem drawMovLayer_eq (layers : List Nat) (m : Nat) (w : World) :
    drawMovLayer layers m w = { w with lcd := w.lcd ++ windowCalls w layers m } := by
  unfold drawMovLayer
  simp only []
  rw [forRange_eq_foldl, foldl_drawRow]
  simp only [lcd_setArea, windowCalls, windowPixels, World.layerOf, firstLayerColor_lcd,
    List.map_flatMap, List.map_map, List.append_assoc, List.singleton_append, Function.comp_def]

theorem drawMovLayers_eq (layers ms : List Nat) (w : World) :
    drawMovLayers layers ms w =
      { w with lcd := w.lcd ++ ms.flatMap (windowCalls w layers) } := by
  induction ms generalizing w with
  | nil => simp [drawMovLayers]
  | cons m rest ih =>
    rw [drawMovLayers, ih, drawMovLayer_eq]
    have hw : ∀ (calls : List LcdCall),
        windowCalls { w with lcd := calls } layers = windowCalls w layers := fun _ => rfl
    simp only [hw, List.flatMap_cons, List.append_assoc]

theorem swapPositions_movs (ms : List Nat) (w : World) :
    (swapPositions ms w).movs = w.movs := by
  induction ms generalizing w with
  | nil => rfl
  | cons m rest ih => rw [swapPositions, ih]; rfl

theorem swapPositions_lcd (ms : List Nat) (w : World) :
    (swapPositions ms w).lcd = w.lcd := by
  induction ms generalizing w with
  | nil => rfl
  | cons m rest ih => rw [swapPositions, ih]; rfl

theorem swapPositions_bgColor (ms : List Nat) (w : World) :
    (swapPositions ms w).bgColor = w.bgColor := by
  induction ms generalizing w with
  | nil => rfl
  | cons m rest ih => rw [swapPositions, ih]; rfl

theorem swapPositions_layers_of_not_mem (ms : List Nat) (w : World) (a : Nat)
    (ha : a ∉ ms.map (fun m => (w.movs m).layer)) :
    (swapPositions ms w).layers a = w.layers a := by
  induction ms generalizing w with
  | nil => rfl
  | cons m rest ih =>
    simp only [List.map_cons, List.mem_cons, not_or] at ha
    rw [swapPositions, ih]
    · simp [World.setLayer, ha.1]
    · exact ha.2

theorem swapPositions_layers_of_mem (ms : List Nat) (w : World)
    (hd : (ms.map (fun m => (w.movs m).layer)).Nodup) (m : Nat) (hm : m ∈ ms) :
    (swapPositions ms w).layers (w.movs m).layer =
      { w.layerOf m with posLast := (w.layerOf m).pos, pos := (w.layerOf m).posNext } := by
  induction ms generalizing w with
  | nil => simp at hm
  | cons m0 rest ih =>
    simp only [List.map_cons, List.nodup_cons] at hd
    rw [swapPositions]
    rcases List.mem_cons.mp hm with rfl | hin
    · rw [swapPositions_layers_of_not_mem]
      · simp [World.setLayer, World.layerOf]
      · exact hd.1
    · have hne : (w.movs m).layer ≠ (w.movs m0).layer := by
        intro h
        exact hd.1 (h ▸ List.mem_map_of_mem (fun k => (w.movs k).layer) hin)
      have key := ih (w.setLayer (w.movs m0).layer
        { w.layers (w.movs m0).layer with
          posLast := (w.layers (w.movs m0).layer).pos
          pos := (w.layers (w.movs m0).layer).posNext }) hd.2 hin
      simp only [World.setLayer, World.layerOf, if_neg hne] at key ⊢
      exact key

theorem firstLayerColor_of_first (w : World) (p : Vec2) (front back : List Nat) (a : Nat)
    (hfront : ∀ b ∈ front, layerContains w b p = false) (ha : layerContains w a p = true) :
    firstLayerColor w (front ++ a :: back) p = (w.layers a).color := by
  induction front with
  | nil =>
    unfold layerContains at ha
    simp [firstLayerColor, List.find?_cons, ha]
  | cons b rest ih =>
    have hb : (w.layers b).abShape.check (w.layers b).pos p = false :=
      hfront b (List.mem_cons_self _ _)
    have := ih (fun c hc => hfront c (List.mem_cons_of_mem _ hc))
    unfold firstLayerColor at this ⊢
    simpa [List.find?_cons, hb] using this

theorem firstLayerColor_of_none (w : World) (p : Vec2) (layers : List Nat)
    (hnone : ∀ a ∈ layers, layerContains w a p = false) :
    firstLayerColor w layers p = w.bgColor := by
  have : layers.find? (fun a => (w.layers a).abShape.check (w.layers a).pos p) = none := by
    rw [List.find?_eq_none]
    intro a ha
    have := hnone a ha
    unfold layerContains at this
    simp [this]
  simp [firstLayerColor, this]

theorem mem_windowPixels (b : Region) (col row : Int) :
    (⟨col, row⟩ : Vec2) ∈ windowPixels b ↔
      b.topLeft.ax0 ≤ col ∧ col ≤ b.botRight.ax0 ∧ b.topLeft.ax1 ≤ row ∧ row ≤ b.botRight.ax1 := by
  simp only [windowPixels, List.mem_flatMap, List.mem_map, mem_intRange, Vec2.mk.injEq]
  constructor
  · rintro ⟨r, hr, c, hc, rfl, rfl⟩
    exact ⟨hc.1, hc.2, hr.1, hr.2⟩
  · rintro ⟨h1, h2, h3, h4⟩
    exact ⟨row, ⟨h3, h4⟩, col, ⟨h1, h2⟩, rfl, rfl⟩

/-- C1: compositing correctness of `movLayerDraw`.  The driver calls issued by one render
pass are, for each moving layer in chain order, the window followed by one
`lcd_writeColor` per pixel of the window in row-major order, whose colour is
`firstLayerColor` at that pixel in the state after the swap step (the layer positions are
the same in the final state); the pixels of a window are exactly the points inside the
dirty rectangle; `firstLayerColor` is the colour of the first layer in chain order whose
shape contains the pixel at its committed `pos`, and `bgColor` if no layer contains it. -/
theorem movLayerDraw_compositing (movLayers layers : List Nat) (w : World) :
    (movLayerDraw movLayers layers w).lcd =
        w.lcd ++ movLayers.flatMap (windowCalls (swapPositions movLayers w) layers) ∧
    (movLayerDraw movLayers layers w).layers = (swapPositions movLayers w).layers ∧
    (∀ (b : Region) (col row : Int), (⟨col, row⟩ : Vec2) ∈ windowPixels b ↔
        b.topLeft.ax0 ≤ col ∧ col ≤ b.botRight.ax0 ∧
        b.topLeft.ax1 ≤ row ∧ row ≤ b.botRight.ax1) ∧
    (∀ (p : Vec2) (front back : List Nat) (a : Nat), layers = front ++ a :: back →
        (∀ b ∈ front, layerContains (swapPositions movLayers w) b p = false) →
        layerContains (swapPositions movLayers w) a p = true →
        firstLayerColor (swapPositions movLayers w) layers p =
          ((swapPositions movLayers w).layers a).color) ∧
    (∀ (p : Vec2), (∀ a ∈ layers, layerContains (swapPositions movLayers w) a p = false) →
        firstLayerColor (swapPositions movLayers w) layers p = w.bgColor) := by
  refine ⟨?_, ?_, mem_windowPixels, ?_, ?_⟩
  · rw [movLayerDraw, drawMovLayers_eq, swapPositions_lcd]
  · rw [movLayerDraw, drawMovLayers_eq]
  · intro p front back a hl hfront ha
    rw [hl]
    exact firstLayerColor_of_first _ p front back a hfront ha
  · intro p hnone
    rw [firstLayerColor_of_none _ p layers hnone, swapPositions_bgColor]

/-! ## Theorems: motion engine -/

theorem mlAdvanceAxis_layers (ml : Nat) (fence sb : Region) (st : World × Vec2) (axis : Nat) :
    (mlAdvanceAxis ml fence sb st axis).1.layers = st.1.layers := by
  unfold mlAdvanceAxis
  simp only []
  split_ifs <;> rfl

theorem mlAdvanceAxis_movs (ml : Nat) (fence sb : Region) (st : World × Vec2) (axis : Nat) :
    (mlAdvanceAxis ml fence sb st axis).1.movs = fun m =>
      if m = ml ∧ exceedsFence sb fence axis then
        ⟨(st.1.movs ml).layer,
          (st.1.movs ml).velocity.setAxis axis (-(st.1.movs ml).velocity.axes axis)⟩
      else st.1.movs m := by
  unfold mlAdvanceAxis exceedsFence
  funext m
  simp only []
  split_ifs <;> simp_all [World.setMov]

theorem mlAdvanceAxis_snd (ml : Nat) (fence sb : Region) (st : World × Vec2) (axis : Nat) :
    (mlAdvanceAxis ml fence sb st axis).2 =
      if exceedsFence sb fence axis then
        st.2.setAxis axis (st.2.axes axis + 2 * -(st.1.movs ml).velocity.axes axis)
      else st.2 := by
  unfold mlAdvanceAxis exceedsFence
  simp only []
  split_ifs <;> rfl

theorem mlAdvanceAxis_p1Score (ml : Nat) (fence sb : Region) (st : World × Vec2) (axis : Nat) :
    (mlAdvanceAxis ml fence sb st axis).1.p1Score =
      if exceedsFence sb fence axis ∧ sb.topLeft.axes 1 < fence.topLeft.axes axis then
        uintIncr st.1.p1Score
      else st.1.p1Score := by
  unfold mlAdvanceAxis exceedsFence
  simp only []
  split_ifs <;> simp_all [World.setMov]

theorem mlAdvanceAxis_p2Score (ml : Nat) (fence sb : Region) (st : World × Vec2) (axis : Nat) :
    (mlAdvanceAxis ml fence sb st axis).1.p2Score =
      if exceedsFence sb fence axis ∧ sb.botRight.axes 1 > fence.botRight.axes axis then
        uintIncr st.1.p2Score
      else st.1.p2Score := by
  unfold mlAdvanceAxis exceedsFence
  simp only []
  split_ifs <;> simp_all [World.setMov]

theorem mlAdvanceAxis_others (ml : Nat) (fence sb : Region) (st : World × Vec2) (axis : Nat) :
    (mlAdvanceAxis ml fence sb st axis).1.others = st.1.others := by
  unfold mlAdvanceAxis
  simp only []
  split_ifs <;> rfl

theorem mlAdvanceOne_movs (ml : Nat) (fence : Region) (w : World) :
    (mlAdvanceOne ml fence w).movs = fun m =>
      if m = ml then
        ⟨(w.movs ml).layer, reflectVelocity (candidateBounds w ml) fence (w.movs ml).velocity⟩
      else w.movs m := by
  unfold mlAdvanceOne
  simp only [List.foldl, World.setLayer, mlAdvanceAxis_movs]
  funext m
  by_cases hm : m = ml
  · subst hm
    by_cases h0 : exceedsFence (candidateBounds w m) fence 0 <;>
    by_cases h1 : exceedsFence (candidateBounds w m) fence 1 <;>
    simp_all [reflectVelocity, candidateBounds, Vec2.setAxis, Vec2.axes]
  · simp [hm]

theorem mlAdvanceOne_layers (ml : Nat) (fence : Region) (w : World) :
    (mlAdvanceOne ml fence w).layers = fun a =>
      if a = (w.movs ml).layer then
        { w.layerOf ml with
          posNext := bouncePosition (candidateBounds w ml) fence
            (vec2Add (w.layerOf ml).posNext (w.movs ml).velocity) (w.movs ml).velocity }
      else w.layers a := by
  unfold mlAdvanceOne
  simp only [List.foldl, World.setLayer, World.layerOf, mlAdvanceAxis_movs, mlAdvanceAxis_layers,
    mlAdvanceAxis_snd]
  funext a
  by_cases h0 : exceedsFence (candidateBounds w ml) fence 0 <;>
  by_cases h1 : exceedsFence (candidateBounds w ml) fence 1 <;>
  simp_all [bouncePosition, candidateBounds, Vec2.setAxis, Vec2.axes, World.layerOf]

theorem mlAdvanceOne_p1Score (ml : Nat) (fence : Region) (w : World) :
    (mlAdvanceOne ml fence w).p1Score =
      (if exceedsFence (candidateBounds w ml) fence 1 ∧
          (candidateBounds w ml).topLeft.ax1 < fence.topLeft.ax1 then uintIncr else id)
        ((if exceedsFence (candidateBounds w ml) fence 0 ∧
          (candidateBounds w ml).topLeft.ax1 < fence.topLeft.ax0 then uintIncr else id)
          w.p1Score) := by
  unfold mlAdvanceOne
  simp only [List.foldl, World.setLayer, mlAdvanceAxis_p1Score]
  simp only [candidateBounds, Vec2.axes]
  split_ifs <;> simp_all

theorem mlAdvanceOne_p2Score (ml : Nat) (fence : Region) (w : World) :
    (mlAdvanceOne ml fence w).p2Score =
      (if exceedsFence (candidateBounds w ml) fence 1 ∧
          (candidateBounds w ml).botRight.ax1 > fence.botRight.ax1 then uintIncr else id)
        ((if exceedsFence (candidateBounds w ml) fence 0 ∧
          (candidateBounds w ml).botRight.ax1 > fence.botRight.ax0 then uintIncr else id)
          w.p2Score) := by
  unfold mlAdvanceOne
  simp only [List.foldl, World.setLayer, mlAdvanceAxis_p2Score]
  simp only [candidateBounds, Vec2.axes]
  split_ifs <;> simp_all

theorem mlAdvanceOne_others (ml : Nat) (fence : Region) (w : World) :
    (mlAdvanceOne ml fence w).others = w.others := by
  unfold mlAdvanceOne
  simp only [List.foldl]
  show (mlAdvanceAxis ml fence _ (mlAdvanceAxis ml fence _ _ 0) 1).1.others = w.others
  rw [mlAdvanceAxis_others, mlAdvanceAxis_others]

theorem mlAdvance_movs_layer (ms : List Nat) (fence : Region) (w : World) (m : Nat) :
    ((mlAdvance ms fence w).movs m).layer = (w.movs m).layer := by
  induction ms generalizing w with
  | nil => rfl
  | cons m0 rest ih =>
    rw [mlAdvance, ih, mlAdvanceOne_movs]
    by_cases h : m = m0
    · simp [h]
    · simp [h]

theorem mlAdvance_refs (ms chain : List Nat) (fence : Region) (w : World) :
    chain.map (fun m => ((mlAdvance ms fence w).movs m).layer) =
      chain.map (fun m => (w.movs m).layer) := by
  simp only [mlAdvance_movs_layer]

theorem mlAdvance_movs_of_not_mem (ms : List Nat) (fence : Region) (w : World) (m : Nat)
    (hm : m ∉ ms) : (mlAdvance ms fence w).movs m = w.movs m := by
  induction ms generalizing w with
  | nil => rfl
  | cons m0 rest ih =>
    simp only [List.mem_cons, not_or] at hm
    rw [mlAdvance, ih _ hm.2, mlAdvanceOne_movs]
    simp [hm.1]

theorem mlAdvance_layers_of_not_mem (ms : List Nat) (fence : Region) (w : World) (a : Nat)
    (ha : a ∉ ms.map (fun m => (w.movs m).layer)) :
    (mlAdvance ms fence w).layers a = w.layers a := by
  induction ms generalizing w with
  | nil => rfl
  | cons m0 rest ih =>
    simp only [List.map_cons, List.mem_cons, not_or] at ha
    rw [mlAdvance, ih, mlAdvanceOne_layers]
    · simp [ha.1]
    · have := mlAdvance_refs [m0] rest fence w
      simp only [mlAdvance] at this
      rw [this]
      exact ha.2

theorem mlAdvance_layers_frame (ms : List Nat) (fence : Region) (w : World) (a : Nat) :
    (mlAdvance ms fence w).layers a =
      { w.layers a with posNext := ((mlAdvance ms fence w).layers a).posNext } := by
  induction ms generalizing w with
  | nil => rfl
  | cons m0 rest ih =>
    rw [mlAdvance]
    have h1 := ih (mlAdvanceOne m0 fence w)
    rw [h1, mlAdvanceOne_layers]
    by_cases h : a = (w.movs m0).layer
    · simp [h, World.layerOf]
    · simp [h]

theorem mlAdvance_others (ms : List Nat) (fence : Region) (w : World) :
    (mlAdvance ms fence w).others = w.others := by
  induction ms generalizing w with
  | nil => rfl
  | cons m0 rest ih => rw [mlAdvance, ih, mlAdvanceOne_others]

theorem candidateBounds_congr (w1 w2 : World) (m : Nat) (hm : w1.movs m = w2.movs m)
    (hl : w1.layers (w2.movs m).layer = w2.layers (w2.movs m).layer) :
    candidateBounds w1 m = candidateBounds w2 m := by
  simp only [candidateBounds, World.layerOf, hm, hl]

theorem mlAdvance_local (ms : List Nat) (fence : Region) (w : World)
    (hd : (ms.map (fun m => (w.movs m).layer)).Nodup) (m : Nat) (hm : m ∈ ms) :
    (mlAdvance ms fence w).movs m = (mlAdvanceOne m fence w).movs m ∧
    (mlAdvance ms fence w).layers (w.movs m).layer =
      (mlAdvanceOne m fence w).layers (w.movs m).layer := by
  induction ms generalizing w with
  | nil => simp at hm
  | cons m0 rest ih =>
    simp only [List.map_cons, List.nodup_cons] at hd
    have hrefs : rest.map (fun k => ((mlAdvanceOne m0 fence w).movs k).layer) =
        rest.map (fun k => (w.movs k).layer) := by
      have := mlAdvance_refs [m0] rest fence w
      simpa only [mlAdvance] using this
    rw [mlAdvance]
    rcases List.mem_cons.mp hm with rfl | hin
    · constructor
      · apply mlAdvance_movs_of_not_mem
        intro hmem
        exact hd.1 (List.mem_map_of_mem (fun k => (w.movs k).layer) hmem)
      · apply mlAdvance_layers_of_not_mem
        rw [hrefs]
        exact hd.1
    · have hne : (w.movs m).layer ≠ (w.movs m0).layer := by
        intro h
        exact hd.1 (h ▸ List.mem_map_of_mem (fun k => (w.movs k).layer) hin)
      have hmne : m ≠ m0 := by
        rintro rfl
        exact hne rfl
      have hmov : (mlAdvanceOne m0 fence w).movs m = w.movs m := by
        rw [mlAdvanceOne_movs]; simp [hmne]
      have hlay : (mlAdvanceOne m0 fence w).layers (w.movs m).layer =
          w.layers (w.movs m).layer := by
        rw [mlAdvanceOne_layers]; simp [hne]
      have hc := candidateBounds_congr (mlAdvanceOne m0 fence w) w m hmov hlay
      have key := ih (mlAdvanceOne m0 fence w) (hrefs ▸ hd.2) hin
      rw [hmov] at key
      refine ⟨key.1.trans ?_, key.2.trans ?_⟩
      · simp only [mlAdvanceOne_movs, if_true, hmov, hc]
      · simp only [mlAdvanceOne_layers, if_true, hmov, hc, World.layerOf, hlay]

/-- C3: elastic reflection law of `mlAdvance`.  For a chain whose entries refer to
pairwise distinct layers, every moving layer `m` of the chain, every fence and each axis
(0 and 1): if the bounds of the layer's candidate position exceed the fence on that axis,
the velocity component on that axis after `mlAdvance` is the negation of its value
before; if they do not, the component is unchanged. -/
theorem mlAdvance_reflection (movLayers : List Nat) (fence : Region) (w : World)
    (hd : (movLayers.map (fun m => (w.movs m).layer)).Nodup)
    (m : Nat) (hm : m ∈ movLayers) (axis : Nat) (hax : axis < 2) :
    (exceedsFence (candidateBounds w m) fence axis →
      ((mlAdvance movLayers fence w).movs m).velocity.axes axis =
        -(w.movs m).velocity.axes axis) ∧
    (¬ exceedsFence (candidateBounds w m) fence axis →
      ((mlAdvance movLayers fence w).movs m).velocity.axes axis =
        (w.movs m).velocity.axes axis) := by
  rw [(mlAdvance_local movLayers fence w hd m hm).1, mlAdvanceOne_movs]
  have h01 : axis = 0 ∨ axis = 1 := by omega
  rcases h01 with rfl | rfl
  · constructor <;> intro h <;> simp [reflectVelocity, Vec2.axes, h]
  · constructor <;> intro h <;> simp [reflectVelocity, Vec2.axes, h]

/-- Witness of C3: in the three-layer chain the ball at (110,80) with velocity (5,3)
exceeds the fence on axis 0, and its horizontal velocity becomes -5. -/
theorem mlAdvance_reflection_witness :
    ([ML0, ML1, ML3].map
      (fun m => ((sampleWorld ⟨110, 80⟩ ⟨110, 80⟩ ⟨5, 3⟩).movs m).layer)).Nodup ∧
    exceedsFence (candidateBounds (sampleWorld ⟨110, 80⟩ ⟨110, 80⟩ ⟨5, 3⟩) ML3) sampleFence 0 ∧
    ((mlAdvance [ML0, ML1, ML3] sampleFence
      (sampleWorld ⟨110, 80⟩ ⟨110, 80⟩ ⟨5, 3⟩)).movs ML3).velocity.axes 0 =
        -((sampleWorld ⟨110, 80⟩ ⟨110, 80⟩ ⟨5, 3⟩).movs ML3).velocity.axes 0 :=
  ⟨by decide, by decide,
    (mlAdvance_reflection [ML0, ML1, ML3] sampleFence (sampleWorld ⟨110, 80⟩ ⟨110, 80⟩ ⟨5, 3⟩)
      (by decide) ML3 (by decide) 0 (by decide)).1 (by decide)⟩

/-- C4 (failing input): the ball at (110,120) with velocity (5,3) and radius 4 has
candidate bounds (111,119)-(119,127), which exceed the fence (10,10)-(118,150) only on
the horizontal axis; advancing it alone leaves `p1Score` at 0 and sets `p2Score` to 1,
because on axis 0 the code compares the vertical bound 127 with the fence's horizontal
limit 118. -/
theorem mlAdvance_side_wall_scores :
    exceedsFence (candidateBounds (sampleWorld ⟨110, 120⟩ ⟨110, 120⟩ ⟨5, 3⟩) ML3) sampleFence 0 ∧
    ¬ exceedsFence (candidateBounds (sampleWorld ⟨110, 120⟩ ⟨110, 120⟩ ⟨5, 3⟩) ML3)
      sampleFence 1 ∧
    (candidateBounds (sampleWorld ⟨110, 120⟩ ⟨110, 120⟩ ⟨5, 3⟩) ML3).botRight.ax1 ≤
      sampleFence.botRight.ax1 ∧
    (sampleWorld ⟨110, 120⟩ ⟨110, 120⟩ ⟨5, 3⟩).p2Score = 0 ∧
    (mlAdvance [ML3] sampleFence (sampleWorld ⟨110, 120⟩ ⟨110, 120⟩ ⟨5, 3⟩)).p2Score = 1 ∧
    (mlAdvance [ML3] sampleFence (sampleWorld ⟨110, 120⟩ ⟨110, 120⟩ ⟨5, 3⟩)).p1Score = 0 := by
  decide

/-- C7: frame of `mlAdvance`.  For every chain and fence, every layer keeps its `pos`,
`posLast`, shape and colour; a layer not referenced by the chain keeps every field; every
moving layer keeps its layer reference and a moving layer outside the chain keeps its
velocity too; the redraw flag, the background colour, the fence, the tick counter, the
LED and both driver logs are unchanged.  (Chains are lists of addresses, so their order
is not part of the state.) -/
theorem mlAdvance_frame (movLayers : List Nat) (fence : Region) (w : World) :
    (∀ a : Nat,
      ((mlAdvance movLayers fence w).layers a).pos = (w.layers a).pos ∧
      ((mlAdvance movLayers fence w).layers a).posLast = (w.layers a).posLast ∧
      ((mlAdvance movLayers fence w).layers a).abShape = (w.layers a).abShape ∧
      ((mlAdvance movLayers fence w).layers a).color = (w.layers a).color) ∧
    (∀ a : Nat, a ∉ movLayers.map (fun m => (w.movs m).layer) →
      (mlAdvance movLayers fence w).layers a = w.layers a) ∧
    (∀ m : Nat, ((mlAdvance movLayers fence w).movs m).layer = (w.movs m).layer) ∧
    (∀ m : Nat, m ∉ movLayers → (mlAdvance movLayers fence w).movs m = w.movs m) ∧
    (mlAdvance movLayers fence w).redrawScreen = w.redrawScreen ∧
    (mlAdvance movLayers fence w).bgColor = w.bgColor ∧
    (mlAdvance movLayers fence w).fieldFence = w.fieldFence ∧
    (mlAdvance movLayers fence w).count = w.count ∧
    (mlAdvance movLayers fence w).greenLed = w.greenLed ∧
    (mlAdvance movLayers fence w).lcd = w.lcd ∧
    (mlAdvance movLayers fence w).buzzer = w.buzzer := by
  have ho := mlAdvance_others movLayers fence w
  simp only [World.others, Prod.mk.injEq] at ho
  refine ⟨fun a => ?_, fun a ha => mlAdvance_layers_of_not_mem movLayers fence w a ha,
    fun m => mlAdvance_movs_layer movLayers fence w m,
    fun m hm => mlAdvance_movs_of_not_mem movLayers fence w m hm,
    ho.2.1, ho.1, ho.2.2.1, ho.2.2.2.1, ho.2.2.2.2.1, ho.2.2.2.2.2.1, ho.2.2.2.2.2.2⟩
  have h := mlAdvance_layers_frame movLayers fence w a
  refine ⟨?_, ?_, ?_, ?_⟩ <;> rw [h]

/-- C2: position commitment by `movLayerDraw`.  For a moving-layer chain whose entries
refer to pairwise distinct layers, after one `movLayerDraw` every moving layer of the
chain has `posLast` equal to its `pos` before the call, `pos` equal to its `posNext`
before the call and `posNext` unchanged, and no moving layer's record (velocity
included) changes; hence after `mlAdvance` followed by `movLayerDraw` every moving
layer's `pos` is the `posNext` that `mlAdvance` computed. -/
theorem movLayerDraw_commits (movLayers layers : List Nat) (fence : Region) (w : World)
    (hd : (movLayers.map (fun m => (w.movs m).layer)).Nodup) :
    (∀ m ∈ movLayers,
      ((movLayerDraw movLayers layers w).layerOf m).posLast = (w.layerOf m).pos ∧
      ((movLayerDraw movLayers layers w).layerOf m).pos = (w.layerOf m).posNext ∧
      ((movLayerDraw movLayers layers w).layerOf m).posNext = (w.layerOf m).posNext) ∧
    (movLayerDraw movLayers layers w).movs = w.movs ∧
    (∀ m ∈ movLayers,
      ((movLayerDraw movLayers layers (mlAdvance movLayers fence w)).layerOf m).pos =
        ((mlAdvance movLayers fence w).layerOf m).posNext) := by
  have hmovs : ∀ v : World, (movLayerDraw movLayers layers v).movs = v.movs := by
    intro v
    rw [movLayerDraw, drawMovLayers_eq]
    exact swapPositions_movs movLayers v
  have hlay : ∀ v : World, (movLayers.map (fun m => (v.movs m).layer)).Nodup →
      ∀ m ∈ movLayers, (movLayerDraw movLayers layers v).layerOf m =
        { v.layerOf m with posLast := (v.layerOf m).pos, pos := (v.layerOf m).posNext } := by
    intro v hv m hm
    have h := swapPositions_layers_of_mem movLayers v hv m hm
    simp only [World.layerOf, hmovs]
    rw [movLayerDraw, drawMovLayers_eq]
    exact h
  refine ⟨fun m hm => ?_, hmovs w, fun m hm => ?_⟩
  · rw [hlay w hd m hm]
    exact ⟨rfl, rfl, rfl⟩
  · rw [hlay (mlAdvance movLayers fence w)
      (by rw [mlAdvance_refs movLayers movLayers fence w]; exact hd) m hm]

/-- Witness of C2: the three-layer chain of the program, the ball at (50,50) pending at
(53,53). -/
theorem movLayerDraw_commits_witness :
    ([ML0, ML1, ML3].map
      (fun m => ((sampleWorld ⟨50, 50⟩ ⟨53, 53⟩ ⟨3, 3⟩).movs m).layer)).Nodup ∧
    ((movLayerDraw [ML0, ML1, ML3] [0, 1, 3]
      (sampleWorld ⟨50, 50⟩ ⟨53, 53⟩ ⟨3, 3⟩)).layerOf ML3).posLast = ⟨50, 50⟩ ∧
    ((movLayerDraw [ML0, ML1, ML3] [0, 1, 3]
      (sampleWorld ⟨50, 50⟩ ⟨53, 53⟩ ⟨3, 3⟩)).layerOf ML3).pos = ⟨53, 53⟩ ∧
    ((movLayerDraw [ML0, ML1, ML3] [0, 1, 3]
      (sampleWorld ⟨50, 50⟩ ⟨53, 53⟩ ⟨3, 3⟩)).layerOf ML3).posNext = ⟨53, 53⟩ :=
  ⟨by decide,
    (movLayerDraw_commits [ML0, ML1, ML3] [0, 1, 3] sampleFence
      (sampleWorld ⟨50, 50⟩ ⟨53, 53⟩ ⟨3, 3⟩) (by decide)).1 ML3 (by decide)⟩

/-- C5 (counterexample): a ball of radius 4 committed at `pos` (64,14), where its bounds
touch the top edge 10 of the fence exactly, with pending position `posNext` (64,17) and
velocity (0,-3); its bounds stay inside the fence horizontally and above the bottom edge
at `pos` + velocity and at `posNext` + velocity.  After one `mlAdvance` the vertical
velocity is still -3, not +3, `posNext` is (64,14), not 2 * 3 below either candidate, and
`p1Score` is still 0: the ball is advanced from `posNext`, whose candidate touches the
edge without crossing it. -/
theorem mlAdvance_top_edge_from_pos_fails :
    ((abCircle 4).getBounds ((sampleWorld ⟨64, 14⟩ ⟨64, 17⟩ ⟨0, -3⟩).layerOf ML3).pos).topLeft.ax1
      = sampleFence.topLeft.ax1 ∧
    ((sampleWorld ⟨64, 14⟩ ⟨64, 17⟩ ⟨0, -3⟩).layerOf ML3).pos = ⟨64, 14⟩ ∧
    ((sampleWorld ⟨64, 14⟩ ⟨64, 17⟩ ⟨0, -3⟩).layerOf ML3).posNext = ⟨64, 17⟩ ∧
    ((sampleWorld ⟨64, 14⟩ ⟨64, 17⟩ ⟨0, -3⟩).movs ML3).velocity = ⟨0, -3⟩ ∧
    ¬ exceedsFence ((abCircle 4).getBounds (vec2Add ⟨64, 14⟩ ⟨0, -3⟩)) sampleFence 0 ∧
    ((abCircle 4).getBounds (vec2Add ⟨64, 14⟩ ⟨0, -3⟩)).botRight.ax1 ≤
      sampleFence.botRight.ax1 ∧
    ¬ exceedsFence (candidateBounds (sampleWorld ⟨64, 14⟩ ⟨64, 17⟩ ⟨0, -3⟩) ML3) sampleFence 0 ∧
    (candidateBounds (sampleWorld ⟨64, 14⟩ ⟨64, 17⟩ ⟨0, -3⟩) ML3).botRight.ax1 ≤
      sampleFence.botRight.ax1 ∧
    ((mlAdvance [ML3] sampleFence (sampleWorld ⟨64, 14⟩ ⟨64, 17⟩ ⟨0, -3⟩)).movs ML3).velocity.ax1
      = -3 ∧
    ((mlAdvance [ML3] sampleFence (sampleWorld ⟨64, 14⟩ ⟨64, 17⟩ ⟨0, -3⟩)).movs ML3).velocity.ax1
      ≠ 3 ∧
    ((mlAdvance [ML3] sampleFence (sampleWorld ⟨64, 14⟩ ⟨64, 17⟩ ⟨0, -3⟩)).layerOf ML3).posNext
      = ⟨64, 14⟩ ∧
    ((mlAdvance [ML3] sampleFence (sampleWorld ⟨64, 14⟩ ⟨64, 17⟩ ⟨0, -3⟩)).layerOf ML3).posNext.ax1
      ≠ (vec2Add ⟨64, 14⟩ ⟨0, -3⟩).ax1 + 2 * 3 ∧
    ((mlAdvance [ML3] sampleFence (sampleWorld ⟨64, 14⟩ ⟨64, 17⟩ ⟨0, -3⟩)).layerOf ML3).posNext.ax1
      ≠ (vec2Add ⟨64, 17⟩ ⟨0, -3⟩).ax1 + 2 * 3 ∧
    (sampleWorld ⟨64, 14⟩ ⟨64, 17⟩ ⟨0, -3⟩).p1Score = 0 ∧
    (mlAdvance [ML3] sampleFence (sampleWorld ⟨64, 14⟩ ⟨64, 17⟩ ⟨0, -3⟩)).p1Score = 0 := by
  decide

/-- C5 (amended): top-edge bounce scenario, from the pending position.  A ball whose bounds
are its centre minus and plus fixed half-extents, whose bounds at its pending position
`posNext` (the position `mlAdvance` advances from, which is the current position `pos`
for a ball at rest) touch the fence's top edge exactly, whose velocity is (0, -v) with
v > 0 and whose candidate bounds (at `posNext` + velocity) stay inside the fence
horizontally and do not exceed its bottom edge has, after one `mlAdvance`, vertical
velocity +v, a `posNext` whose vertical coordinate is the candidate's plus 2v and whose
horizontal coordinate is the candidate's, `p1Score` incremented once (by exactly 1 below
the 16-bit limit) and `p2Score` unchanged. -/
theorem mlAdvance_top_edge_bounce (m : Nat) (fence : Region) (w : World) (v : Int)
    (half : Vec2)
    (hshape : ∀ c : Vec2,
      (w.layerOf m).abShape.getBounds c = ⟨vec2Sub c half, vec2Add c half⟩)
    (hv : 0 < v) (hvel : (w.movs m).velocity = ⟨0, -v⟩)
    (htouch : ((w.layerOf m).abShape.getBounds (w.layerOf m).posNext).topLeft.ax1 =
      fence.topLeft.ax1)
    (hhoriz : ¬ exceedsFence (candidateBounds w m) fence 0)
    (hbot : (candidateBounds w m).botRight.ax1 ≤ fence.botRight.ax1) :
    ((mlAdvance [m] fence w).movs m).velocity.ax1 = v ∧
    ((mlAdvance [m] fence w).layerOf m).posNext.ax1 =
      (vec2Add (w.layerOf m).posNext (w.movs m).velocity).ax1 + 2 * v ∧
    ((mlAdvance [m] fence w).layerOf m).posNext.ax0 =
      (vec2Add (w.layerOf m).posNext (w.movs m).velocity).ax0 ∧
    (mlAdvance [m] fence w).p1Score = (w.p1Score + 1) % 65536 ∧
    (w.p1Score < 65535 → (mlAdvance [m] fence w).p1Score = w.p1Score + 1) ∧
    (mlAdvance [m] fence w).p2Score = w.p2Score := by
  have hvert : exceedsFence (candidateBounds w m) fence 1 := by
    left
    have h1 := hshape (w.layerOf m).posNext
    rw [h1] at htouch
    simp only [candidateBounds, hshape, hvel, Vec2.axes, vec2Add, vec2Sub] at htouch ⊢
    simp only [Nat.one_ne_zero, if_false]
    omega
  have htop : (candidateBounds w m).topLeft.ax1 < fence.topLeft.ax1 := by
    have h1 := hshape (w.layerOf m).posNext
    rw [h1] at htouch
    simp only [candidateBounds, hshape, hvel, vec2Add, vec2Sub] at htouch ⊢
    omega
  have hp1 : (mlAdvance [m] fence w).p1Score = (w.p1Score + 1) % 65536 := by
    simp only [mlAdvance, mlAdvanceOne_p1Score]
    simp [hhoriz, hvert, htop, uintIncr]
  refine ⟨?_, ?_, ?_, hp1, ?_, ?_⟩
  · simp only [mlAdvance, mlAdvanceOne_movs, if_true, reflectVelocity, if_pos hvert, hvel]
    omega
  · simp only [mlAdvance, World.layerOf, mlAdvanceOne_movs, mlAdvanceOne_layers, if_true,
      bouncePosition, if_pos hvert, hvel, vec2Add]
    omega
  · simp only [mlAdvance, World.layerOf, mlAdvanceOne_movs, mlAdvanceOne_layers, if_true,
      bouncePosition, if_neg hhoriz, hvel, vec2Add]
  · intro hlt
    rw [hp1]
    omega
  · simp only [mlAdvance, mlAdvanceOne_p2Score]
    have : ¬ (candidateBounds w m).botRight.ax1 > fence.botRight.ax1 := by omega
    simp [hhoriz, this]

/-- Witness of C5 (amended): the ball of radius 4 at rest at (64,14) (`pos = posNext`)
touches the top edge 10 of the fence and moves up with velocity (0,-3). -/
theorem mlAdvance_top_edge_bounce_witness :
    ((mlAdvance [ML3] sampleFence (sampleWorld ⟨64, 14⟩ ⟨64, 14⟩ ⟨0, -3⟩)).movs ML3).velocity.ax1
      = 3 ∧
    ((mlAdvance [ML3] sampleFence (sampleWorld ⟨64, 14⟩ ⟨64, 14⟩ ⟨0, -3⟩)).layerOf ML3).posNext.ax1
      = 11 + 2 * 3 ∧
    ((mlAdvance [ML3] sampleFence (sampleWorld ⟨64, 14⟩ ⟨64, 14⟩ ⟨0, -3⟩)).layerOf ML3).posNext.ax0
      = 64 ∧
    (mlAdvance [ML3] sampleFence (sampleWorld ⟨64, 14⟩ ⟨64, 14⟩ ⟨0, -3⟩)).p1Score = 1 ∧
    (mlAdvance [ML3] sampleFence (sampleWorld ⟨64, 14⟩ ⟨64, 14⟩ ⟨0, -3⟩)).p2Score = 0 :=
  have h := mlAdvance_top_edge_bounce ML3 sampleFence (sampleWorld ⟨64, 14⟩ ⟨64, 14⟩ ⟨0, -3⟩)
    3 ⟨4, 4⟩ (fun _ => rfl) (by decide) rfl (by decide) (by decide) (by decide)
  ⟨h.1, h.2.1, h.2.2.1, h.2.2.2.1, h.2.2.2.2.2⟩

/-- C6 (counterexample): a ball committed at (50,50) with pending position (53,53) and
velocity (3,3), well inside the fence under either reading of the candidate; after
`mlAdvance` its `posNext` is (56,56), not `pos` + velocity = (53,53). -/
theorem mlAdvance_not_from_pos :
    ¬ exceedsFence ((abCircle 4).getBounds (vec2Add ⟨50, 50⟩ ⟨3, 3⟩)) sampleFence 0 ∧
    ¬ exceedsFence ((abCircle 4).getBounds (vec2Add ⟨50, 50⟩ ⟨3, 3⟩)) sampleFence 1 ∧
    ¬ exceedsFence (candidateBounds (sampleWorld ⟨50, 50⟩ ⟨53, 53⟩ ⟨3, 3⟩) ML3) sampleFence 0 ∧
    ¬ exceedsFence (candidateBounds (sampleWorld ⟨50, 50⟩ ⟨53, 53⟩ ⟨3, 3⟩) ML3) sampleFence 1 ∧
    ((sampleWorld ⟨50, 50⟩ ⟨53, 53⟩ ⟨3, 3⟩).layerOf ML3).pos = ⟨50, 50⟩ ∧
    ((sampleWorld ⟨50, 50⟩ ⟨53, 53⟩ ⟨3, 3⟩).movs ML3).velocity = ⟨3, 3⟩ ∧
    ((mlAdvance [ML3] sampleFence (sampleWorld ⟨50, 50⟩ ⟨53, 53⟩ ⟨3, 3⟩)).layerOf ML3).posNext
      = ⟨56, 56⟩ ∧
    ((mlAdvance [ML3] sampleFence (sampleWorld ⟨50, 50⟩ ⟨53, 53⟩ ⟨3, 3⟩)).layerOf ML3).posNext
      ≠ vec2Add ((sampleWorld ⟨50, 50⟩ ⟨53, 53⟩ ⟨3, 3⟩).layerOf ML3).pos
          ((sampleWorld ⟨50, 50⟩ ⟨53, 53⟩ ⟨3, 3⟩).movs ML3).velocity := by
  decide

/-- C6 (amended): for a chain whose entries refer to pairwise distinct layers and a moving
layer of it whose candidate bounds (the shape's bounds at `posNext` + velocity) do not
exceed the fence on either axis, `mlAdvance` sets the layer's `posNext` to its previous
`posNext` plus the velocity; this is `pos` + velocity whenever `pos = posNext` held
before the call. -/
theorem mlAdvance_posNext_inside (movLayers : List Nat) (fence : Region) (w : World)
    (hd : (movLayers.map (fun m => (w.movs m).layer)).Nodup)
    (m : Nat) (hm : m ∈ movLayers)
    (h0 : ¬ exceedsFence (candidateBounds w m) fence 0)
    (h1 : ¬ exceedsFence (candidateBounds w m) fence 1) :
    ((mlAdvance movLayers fence w).layerOf m).posNext =
      vec2Add (w.layerOf m).posNext (w.movs m).velocity ∧
    ((w.layerOf m).pos = (w.layerOf m).posNext →
      ((mlAdvance movLayers fence w).layerOf m).posNext =
        vec2Add (w.layerOf m).pos (w.movs m).velocity) := by
  have key : ((mlAdvance movLayers fence w).layerOf m).posNext =
      vec2Add (w.layerOf m).posNext (w.movs m).velocity := by
    have h := (mlAdvance_local movLayers fence w hd m hm).2
    simp only [World.layerOf, mlAdvance_movs_layer] at h ⊢
    rw [h, mlAdvanceOne_layers]
    simp [bouncePosition, h0, h1, World.layerOf]
  exact ⟨key, fun hp => hp ▸ key⟩

/-- Witness of C6 (amended): the ball pending at (53,53) with velocity (3,3) in the
three-layer chain. -/
theorem mlAdvance_posNext_inside_witness :
    ((mlAdvance [ML0, ML1, ML3] sampleFence
      (sampleWorld ⟨50, 50⟩ ⟨53, 53⟩ ⟨3, 3⟩)).layerOf ML3).posNext = ⟨56, 56⟩ :=
  (mlAdvance_posNext_inside [ML0, ML1, ML3] sampleFence (sampleWorld ⟨50, 50⟩ ⟨53, 53⟩ ⟨3, 3⟩)
    (by decide) ML3 (by decide) (by decide) (by decide)).1

/-! ## Theorems: paddle contact -/

theorem bouncePaddle_layers (ball paddle : Nat) (w : World) :
    (bouncePaddle ball paddle w).layers = w.layers := by
  unfold bouncePaddle bouncePaddleLocals
  simp only []
  split_ifs <;> rfl

theorem bouncePaddle_hit (ball paddle : Nat) (w : World)
    (h : cornerContact w ball paddle = true) :
    bouncePaddle ball paddle w = buzzer_set_period 1500 (w.setMov ball
      { w.movs ball with
        velocity := (w.movs ball).velocity.setAxis 1 (-(w.movs ball).velocity.axes 1) }) := by
  unfold cornerContact layerContains at h
  unfold bouncePaddle bouncePaddleLocals
  simp only [World.layerOf] at h ⊢
  rw [if_pos h]

theorem bouncePaddle_miss (ball paddle : Nat) (w : World)
    (h : cornerContact w ball paddle = false) :
    bouncePaddle ball paddle w = w := by
  unfold cornerContact layerContains at h
  unfold bouncePaddle bouncePaddleLocals
  simp only [World.layerOf] at h ⊢
  rw [if_neg (by simp [h])]

/-- C8: corner-sampled paddle contact in `bouncePaddle`.  With B the ball shape's bounds
at `ball.pos + ball.velocity`: if B's top-left or bottom-right corner is inside the
paddle's shape at the paddle's committed `pos`, the ball's vertical velocity is negated
(the horizontal one kept) and `buzzer_set_period(1500)` is called; if neither corner is
inside, no moving layer changes and no buzzer call is made.  And there is a state in
which B overlaps the paddle's bounding box while neither sampled corner is inside the
paddle, where the velocity is unchanged and no buzzer call is made. -/
theorem bouncePaddle_corner_contact (ball paddle : Nat) (w : World) :
    (cornerContact w ball paddle = true →
      ((bouncePaddle ball paddle w).movs ball).velocity.ax1 = -(w.movs ball).velocity.ax1 ∧
      ((bouncePaddle ball paddle w).movs ball).velocity.ax0 = (w.movs ball).velocity.ax0 ∧
      (bouncePaddle ball paddle w).buzzer = w.buzzer ++ [1500]) ∧
    (cornerContact w ball paddle = false →
      (bouncePaddle ball paddle w).movs = w.movs ∧
      (bouncePaddle ball paddle w).buzzer = w.buzzer) ∧
    (∃ (w0 : World) (b p : Nat),
      regionsOverlap
        ((w0.layerOf b).abShape.getBounds (vec2Add (w0.layerOf b).pos (w0.movs b).velocity))
        ((w0.layerOf p).abShape.getBounds (w0.layerOf p).pos) ∧
      cornerContact w0 b p = false ∧
      (bouncePaddle b p w0).movs b = w0.movs b ∧
      (bouncePaddle b p w0).buzzer = w0.buzzer) := by
  refine ⟨fun h => ?_, fun h => ?_, ?_⟩
  · rw [bouncePaddle_hit ball paddle w h]
    simp [buzzer_set_period, World.setMov, Vec2.setAxis, Vec2.axes]
  · rw [bouncePaddle_miss ball paddle w h]
    exact ⟨rfl, rfl⟩
  · exact ⟨sampleWorld ⟨64, 19⟩ ⟨64, 19⟩ ⟨0, -3⟩, ML3, ML1,
      by decide, by decide, by decide, by decide⟩

/-- C9 (failing input): the ball of radius 4 at (64,26) with velocity (3,-3) has
prospective bounds (63,19)-(71,27), whose top-left corner is inside the upper paddle
(44,13)-(84,19).  `bouncePaddle` reflects the vertical velocity to 3 and offsets its
local `xy` to (67,29), but the ball layer's stored `posNext` stays (64,26) and its `pos`
stays (64,26): the offset 2 * 3 is never written to the layer. -/
theorem bouncePaddle_offset_dropped :
    cornerContact (sampleWorld ⟨64, 26⟩ ⟨64, 26⟩ ⟨3, -3⟩) ML3 ML1 = true ∧
    ((bouncePaddle ML3 ML1 (sampleWorld ⟨64, 26⟩ ⟨64, 26⟩ ⟨3, -3⟩)).movs ML3).velocity
      = ⟨3, 3⟩ ∧
    (bouncePaddleLocals ML3 ML1 (sampleWorld ⟨64, 26⟩ ⟨64, 26⟩ ⟨3, -3⟩)).2 = ⟨67, 29⟩ ∧
    ((sampleWorld ⟨64, 26⟩ ⟨64, 26⟩ ⟨3, -3⟩).layerOf ML3).posNext = ⟨64, 26⟩ ∧
    ((bouncePaddle ML3 ML1 (sampleWorld ⟨64, 26⟩ ⟨64, 26⟩ ⟨3, -3⟩)).layerOf ML3).posNext
      = ⟨64, 26⟩ ∧
    ((bouncePaddle ML3 ML1 (sampleWorld ⟨64, 26⟩ ⟨64, 26⟩ ⟨3, -3⟩)).layerOf ML3).pos
      = ⟨64, 26⟩ := by
  decide

/-! ## Theorems: tick handler -/

theorem str_eq_not_testBit (switches i : Nat) : str switches i = !switches.testBit i := by
  unfold str
  rw [Nat.one_shiftLeft, Nat.and_two_pow]
  have hpos : 2 ^ i ≠ 0 := (Nat.two_pow_pos i).ne'
  cases h : switches.testBit i <;> simp [hpos]

theorem applySwitches_ml0 (switches : Nat) (w : World) :
    ((applySwitches switches w).movs ML0).velocity =
      if str switches 1 then ⟨3, 0⟩ else if str switches 0 then ⟨-3, 0⟩ else ⟨0, 0⟩ := by
  unfold applySwitches
  cases str switches 0 <;> cases str switches 1 <;> cases str switches 2 <;>
    cases str switches 3 <;>
    simp [setVelocityAxis, World.setMov, ML0, ML1, Vec2.setAxis]

theorem applySwitches_ml1 (switches : Nat) (w : World) :
    ((applySwitches switches w).movs ML1).velocity =
      if str switches 3 then ⟨3, 0⟩ else if str switches 2 then ⟨-3, 0⟩ else ⟨0, 0⟩ := by
  unfold applySwitches
  cases str switches 0 <;> cases str switches 1 <;> cases str switches 2 <;>
    cases str switches 3 <;>
    simp [setVelocityAxis, World.setMov, ML0, ML1, Vec2.setAxis]

theorem wdt_c_handler_acting_movs (switches : Nat) (w : World) (hact : w.count = 14) :
    ((wdt_c_handler switches w).movs ML0).velocity =
      (if str switches 1 then ⟨3, 0⟩ else if str switches 0 then ⟨-3, 0⟩ else ⟨0, 0⟩) ∧
    ((wdt_c_handler switches w).movs ML1).velocity =
      (if str switches 3 then ⟨3, 0⟩ else if str switches 2 then ⟨-3, 0⟩ else ⟨0, 0⟩) := by
  unfold wdt_c_handler
  simp only [buzzer_set_period, hact]
  norm_num
  unfold tickBody
  simp only [applySwitches_ml0, applySwitches_ml1]
  exact ⟨trivial, trivial⟩

/-- C10: switch-to-velocity mapping in the acting tick (the invocation that finds the
counter at 14 and raises it to 15).  For every mask read from the switches, paddle 0
(`ml0`) is left with velocity (-3,0) if of lines 0 and 1 only line 0 is asserted, (3,0)
if only line 1 is asserted and (0,0) if neither is; paddle 1 (`ml1`) likewise from lines
2 and 3; paddle 0's velocity is the same for any two masks that agree on lines 0 and 1,
and paddle 1's for any two masks that agree on lines 2 and 3. -/
theorem wdt_c_handler_switch_mapping (switches : Nat) (w : World) (hact : w.count = 14) :
    (lineAsserted switches 0 ∧ ¬ lineAsserted switches 1 →
      ((wdt_c_handler switches w).movs ML0).velocity = ⟨-3, 0⟩) ∧
    (¬ lineAsserted switches 0 ∧ lineAsserted switches 1 →
      ((wdt_c_handler switches w).movs ML0).velocity = ⟨3, 0⟩) ∧
    (¬ lineAsserted switches 0 ∧ ¬ lineAsserted switches 1 →
      ((wdt_c_handler switches w).movs ML0).velocity = ⟨0, 0⟩) ∧
    (lineAsserted switches 2 ∧ ¬ lineAsserted switches 3 →
      ((wdt_c_handler switches w).movs ML1).velocity = ⟨-3, 0⟩) ∧
    (¬ lineAsserted switches 2 ∧ lineAsserted switches 3 →
      ((wdt_c_handler switches w).movs ML1).velocity = ⟨3, 0⟩) ∧
    (¬ lineAsserted switches 2 ∧ ¬ lineAsserted switches 3 →
      ((wdt_c_handler switches w).movs ML1).velocity = ⟨0, 0⟩) ∧
    (∀ other : Nat, (lineAsserted other 0 ↔ lineAsserted switches 0) →
      (lineAsserted other 1 ↔ lineAsserted switches 1) →
      ((wdt_c_handler other w).movs ML0).velocity =
        ((wdt_c_handler switches w).movs ML0).velocity) ∧
    (∀ other : Nat, (lineAsserted other 2 ↔ lineAsserted switches 2) →
      (lineAsserted other 3 ↔ lineAsserted switches 3) →
      ((wdt_c_handler other w).movs ML1).velocity =
        ((wdt_c_handler switches w).movs ML1).velocity) := by
  have hs := wdt_c_handler_acting_movs switches w hact
  simp only [str_eq_not_testBit] at hs
  unfold lineAsserted
  refine ⟨?_, ?_, ?_, ?_, ?_, ?_, ?_, ?_⟩
  · rintro ⟨h0, h1⟩
    rw [hs.1]; simp_all
  · rintro ⟨h0, h1⟩
    rw [hs.1]; simp_all
  · rintro ⟨h0, h1⟩
    rw [hs.1]; simp_all
  · rintro ⟨h0, h1⟩
    rw [hs.2]; simp_all
  · rintro ⟨h0, h1⟩
    rw [hs.2]; simp_all
  · rintro ⟨h0, h1⟩
    rw [hs.2]; simp_all
  · intro other e0 e1
    have ho := wdt_c_handler_acting_movs other w hact
    simp only [str_eq_not_testBit] at ho
    rw [ho.1, hs.1]
    cases ha : switches.testBit 0 <;> cases hb : switches.testBit 1 <;>
      cases hc : other.testBit 0 <;> cases hd : other.testBit 1 <;> simp_all
  · intro other e0 e1
    have ho := wdt_c_handler_acting_movs other w hact
    simp only [str_eq_not_testBit] at ho
    rw [ho.2, hs.2]
    cases ha : switches.testBit 2 <;> cases hb : switches.testBit 3 <;>
      cases hc : other.testBit 2 <;> cases hd : other.testBit 3 <;> simp_all

/-- Witness of C10: with the counter at 14 and the mask 0b1110 (only line 0 asserted),
paddle 0 is left with velocity (-3,0). -/
theorem wdt_c_handler_switch_mapping_witness :
    (sampleWorld ⟨74, 85⟩ ⟨74, 85⟩ ⟨3, 3⟩).count = 14 ∧
    lineAsserted 14 0 ∧ ¬ lineAsserted 14 1 ∧
    ((wdt_c_handler 14 (sampleWorld ⟨74, 85⟩ ⟨74, 85⟩ ⟨3, 3⟩)).movs ML0).velocity = ⟨-3, 0⟩ :=
  ⟨rfl, by decide, by decide,
    (wdt_c_handler_switch_mapping 14 (sampleWorld ⟨74, 85⟩ ⟨74, 85⟩ ⟨3, 3⟩) rfl).1
      ⟨by decide, by decide⟩⟩

/-- C11 (counterexample): in the acting tick, with lines 0 and 1 both asserted (bits 0 and
1 of the mask read are 0, as in the raw mask 0b1100, whose inversion is 0b0011) paddle 0
is left with velocity (3,0), not (-3,0); and with the raw mask 0b0011 itself neither line
0 nor line 1 is asserted and paddle 0 is left with velocity (0,0), not (-3,0). -/
theorem wdt_c_handler_both_lines_not_line0 :
    (sampleWorld ⟨74, 85⟩ ⟨74, 85⟩ ⟨3, 3⟩).count = 14 ∧
    lineAsserted 0b1100 0 ∧ lineAsserted 0b1100 1 ∧
    ((wdt_c_handler 0b1100 (sampleWorld ⟨74, 85⟩ ⟨74, 85⟩ ⟨3, 3⟩)).movs ML0).velocity
      = ⟨3, 0⟩ ∧
    ((wdt_c_handler 0b1100 (sampleWorld ⟨74, 85⟩ ⟨74, 85⟩ ⟨3, 3⟩)).movs ML0).velocity
      ≠ ⟨-3, 0⟩ ∧
    ¬ lineAsserted 0b0011 0 ∧ ¬ lineAsserted 0b0011 1 ∧
    ((wdt_c_handler 0b0011 (sampleWorld ⟨74, 85⟩ ⟨74, 85⟩ ⟨3, 3⟩)).movs ML0).velocity
      = ⟨0, 0⟩ ∧
    ((wdt_c_handler 0b0011 (sampleWorld ⟨74, 85⟩ ⟨74, 85⟩ ⟨3, 3⟩)).movs ML0).velocity
      ≠ ⟨-3, 0⟩ := by
  decide

/-- C11 (amended): whenever lines 0 and 1 are both asserted in the acting tick, paddle 0
(`ml0`) is left with velocity (3,0): the assignment for line 1, which the handler
evaluates after the one for line 0, is the one that takes effect. -/
theorem wdt_c_handler_both_lines_line1 (switches : Nat) (w : World) (hact : w.count = 14)
    (h0 : lineAsserted switches 0) (h1 : lineAsserted switches 1) :
    ((wdt_c_handler switches w).movs ML0).velocity = ⟨3, 0⟩ := by
  have _ := h0
  have hs := (wdt_c_handler_acting_movs switches w hact).1
  simp only [str_eq_not_testBit] at hs
  unfold lineAsserted at h0 h1
  rw [hs]
  simp [h1]

/-- Witness of C11 (amended): the raw mask 0b1100 asserts lines 0 and 1. -/
theorem wdt_c_handler_both_lines_line1_witness :
    lineAsserted 0b1100 0 ∧ lineAsserted 0b1100 1 ∧
    ((wdt_c_handler 0b1100 (sampleWorld ⟨74, 85⟩ ⟨74, 85⟩ ⟨3, 3⟩)).movs ML0).velocity
      = ⟨3, 0⟩ :=
  ⟨by decide, by decide,
    wdt_c_handler_both_lines_line1 0b1100 (sampleWorld ⟨74, 85⟩ ⟨74, 85⟩ ⟨3, 3⟩) rfl
      (by decide) (by decide)⟩

/-! ## Theorems: dirty rectangles and idempotence of the renderer -/

theorem length_intRange (lo hi : Int) : (intRange lo hi).length = (hi + 1 - lo).toNat := by
  simp [intRange]

theorem pairwise_intRange (lo hi : Int) : (intRange lo hi).Pairwise (· < ·) := by
  unfold intRange
  rw [List.pairwise_map]
  exact (List.pairwise_lt_range _).imp (fun h => by omega)

theorem length_flatMap_const {α β : Type} (l : List α) (f : α → List β) (n : Nat)
    (h : ∀ a, (f a).length = n) : (l.flatMap f).length = l.length * n := by
  induction l with
  | nil => simp
  | cons a rest ih =>
    rw [List.flatMap_cons, List.length_append, ih, h, List.length_cons]
    ring

theorem length_windowPixels (b : Region) :
    (windowPixels b).length =
      (b.botRight.ax0 + 1 - b.topLeft.ax0).toNat * (b.botRight.ax1 + 1 - b.topLeft.ax1).toNat := by
  unfold windowPixels
  rw [length_flatMap_const _ _ (b.botRight.ax0 + 1 - b.topLeft.ax0).toNat
    (fun row => by rw [List.length_map, length_intRange]), length_intRange]
  ring

theorem pairwise_windowPixels (b : Region) : (windowPixels b).Pairwise rowMajorLt := by
  unfold windowPixels
  rw [List.pairwise_flatMap]
  constructor
  · intro row _
    rw [List.pairwise_map]
    exact (pairwise_intRange _ _).imp (fun h => Or.inr ⟨rfl, h⟩)
  · refine (pairwise_intRange _ _).imp ?_
    intro r1 r2 hlt p hp q hq
    simp only [List.mem_map] at hp hq
    obtain ⟨_, _, rfl⟩ := hp
    obtain ⟨_, _, rfl⟩ := hq
    exact Or.inl hlt

theorem mem_windowPixels_iff (b : Region) (p : Vec2) : p ∈ windowPixels b ↔ b.contains p := by
  cases p with
  | mk col row => exact mem_windowPixels b col row

theorem regionUnion_contains (r1 r2 : Region) (p : Vec2)
    (h : r1.contains p ∨ r2.contains p) : (regionUnion r1 r2).contains p := by
  unfold Region.contains regionUnion at *
  simp only [min_le_iff, le_max_iff]
  rcases h with h | h
  · exact ⟨Or.inl h.1, Or.inl h.2.1, Or.inl h.2.2.1, Or.inl h.2.2.2⟩
  · exact ⟨Or.inr h.1, Or.inr h.2.1, Or.inr h.2.2.1, Or.inr h.2.2.2⟩

theorem lcdPixelWrites_writes (f : Vec2 → Nat) (ps more : List Vec2) (rest : List LcdCall) :
    lcdPixelWrites (ps.map (fun p => LcdCall.writeColor (f p)) ++ rest) (ps ++ more) =
      ps.map (fun p => (p, f p)) ++ lcdPixelWrites rest more := by
  induction ps with
  | nil => rfl
  | cons p ps ih =>
    show (p, f p) :: lcdPixelWrites (ps.map (fun p => LcdCall.writeColor (f p)) ++ rest)
      (ps ++ more) = _
    rw [ih]
    rfl

theorem lcdPixelWrites_windowCalls (ws : World) (layers : List Nat) (m : Nat)
    (rest : List LcdCall) (pending : List Vec2) :
    lcdPixelWrites (windowCalls ws layers m ++ rest) pending =
      (windowPixels (layerGetBounds (ws.layerOf m))).map
        (fun p => (p, firstLayerColor ws layers p)) ++ lcdPixelWrites rest [] := by
  unfold windowCalls
  simp only [List.cons_append, lcdPixelWrites]
  have h := lcdPixelWrites_writes (firstLayerColor ws layers)
    (windowPixels (layerGetBounds (ws.layerOf m))) [] rest
  rw [List.append_nil] at h
  exact h

theorem lcdPixelWrites_flatMap (ws : World) (layers ms : List Nat) (pending : List Vec2)
    (pc : Vec2 × Nat)
    (h : pc ∈ lcdPixelWrites (ms.flatMap (windowCalls ws layers)) pending) :
    ∃ m ∈ ms, (layerGetBounds (ws.layerOf m)).contains pc.1 ∧
      pc.2 = firstLayerColor ws layers pc.1 := by
  induction ms generalizing pending with
  | nil => simp [lcdPixelWrites] at h
  | cons m rest ih =>
    rw [List.flatMap_cons, lcdPixelWrites_windowCalls, List.mem_append] at h
    rcases h with h | h
    · simp only [List.mem_map] at h
      obtain ⟨p, hp, rfl⟩ := h
      exact ⟨m, List.mem_cons_self _ _, (mem_windowPixels_iff _ _).mp hp, rfl⟩
    · obtain ⟨k, hk, hin⟩ := ih [] h
      exact ⟨k, List.mem_cons_of_mem _ hk, hin⟩

/-- C12: dirty-rectangle confinement in `movLayerDraw`.  The driver calls of one render
pass are the window calls of the moving layers in chain order.  For each moving layer the
window is the union of its shape's bounds at `posLast` and at `pos` after the swap (as
`layerGetBounds` is specified), which covers both silhouettes' bounds; the
`lcd_writeColor` calls for it are as many as the window has pixels, (width) * (height)
with inclusive bounds, and they address the window's pixels in row-major order.  The
pixels of a window are exactly the points inside it, listed in strictly increasing
row-major order.  Hence every pixel written during the call lies inside the dirty
rectangle of some moving layer of the chain. -/
theorem movLayerDraw_dirty_rectangles (movLayers layers : List Nat) (w : World) :
    (movLayerDraw movLayers layers w).lcd =
      w.lcd ++ movLayers.flatMap (windowCalls (swapPositions movLayers w) layers) ∧
    (∀ m : Nat,
      layerGetBounds ((swapPositions movLayers w).layerOf m) =
        regionUnion
          (((swapPositions movLayers w).layerOf m).abShape.getBounds
            ((swapPositions movLayers w).layerOf m).posLast)
          (((swapPositions movLayers w).layerOf m).abShape.getBounds
            ((swapPositions movLayers w).layerOf m).pos) ∧
      (∀ p : Vec2,
        (((swapPositions movLayers w).layerOf m).abShape.getBounds
            ((swapPositions movLayers w).layerOf m).posLast).contains p ∨
          (((swapPositions movLayers w).layerOf m).abShape.getBounds
            ((swapPositions movLayers w).layerOf m).pos).contains p →
        (layerGetBounds ((swapPositions movLayers w).layerOf m)).contains p) ∧
      windowCalls (swapPositions movLayers w) layers m =
        LcdCall.setArea
          (layerGetBounds ((swapPositions movLayers w).layerOf m)).topLeft.ax0
          (layerGetBounds ((swapPositions movLayers w).layerOf m)).topLeft.ax1
          (layerGetBounds ((swapPositions movLayers w).layerOf m)).botRight.ax0
          (layerGetBounds ((swapPositions movLayers w).layerOf m)).botRight.ax1 ::
        (windowPixels (layerGetBounds ((swapPositions movLayers w).layerOf m))).map
          (fun p => LcdCall.writeColor
            (firstLayerColor (swapPositions movLayers w) layers p)) ∧
      (∀ pending : List Vec2,
        lcdPixelWrites (windowCalls (swapPositions movLayers w) layers m) pending =
          (windowPixels (layerGetBounds ((swapPositions movLayers w).layerOf m))).map
            (fun p => (p, firstLayerColor (swapPositions movLayers w) layers p)))) ∧
    (∀ b : Region,
      (windowPixels b).length =
        (b.botRight.ax0 + 1 - b.topLeft.ax0).toNat *
          (b.botRight.ax1 + 1 - b.topLeft.ax1).toNat ∧
      (b.topLeft.ax0 ≤ b.botRight.ax0 → b.topLeft.ax1 ≤ b.botRight.ax1 →
        ((windowPixels b).length : Int) =
          (b.botRight.ax0 - b.topLeft.ax0 + 1) * (b.botRight.ax1 - b.topLeft.ax1 + 1)) ∧
      (windowPixels b).Pairwise rowMajorLt ∧
      (∀ p : Vec2, p ∈ windowPixels b ↔ b.contains p)) ∧
    (∀ (pending : List Vec2) (pc : Vec2 × Nat),
      pc ∈ lcdPixelWrites
        (movLayers.flatMap (windowCalls (swapPositions movLayers w) layers)) pending →
      ∃ m ∈ movLayers,
        (layerGetBounds ((swapPositions movLayers w).layerOf m)).contains pc.1) := by
  refine ⟨?_, fun m => ⟨rfl, fun p hp => regionUnion_contains _ _ p hp, rfl, fun pending => ?_⟩,
    fun b => ⟨length_windowPixels b, fun hx hy => ?_, pairwise_windowPixels b,
      mem_windowPixels_iff b⟩, fun pending pc h => ?_⟩
  · rw [movLayerDraw, drawMovLayers_eq, swapPositions_lcd]
  · have h := lcdPixelWrites_windowCalls (swapPositions movLayers w) layers m [] pending
    simpa [lcdPixelWrites] using h
  · rw [length_windowPixels, Nat.cast_mul, Int.toNat_of_nonneg (by omega),
      Int.toNat_of_nonneg (by omega)]
    ring
  · obtain ⟨m, hm, hin, _⟩ := lcdPixelWrites_flatMap _ layers movLayers pending pc h
    exact ⟨m, hm, hin⟩

theorem swapPositions_layers_iterate (ms : List Nat) (w : World) (a : Nat) :
    (swapPositions ms w).layers a =
      swapLayer^[(ms.map (fun m => (w.movs m).layer)).count a] (w.layers a) := by
  induction ms generalizing w with
  | nil => rfl
  | cons m0 rest ih =>
    rw [swapPositions, ih]
    simp only [World.setLayer, List.map_cons, List.count_cons]
    by_cases h : a = (w.movs m0).layer
    · subst h
      simp only [if_true, beq_self_eq_true, Function.iterate_succ_apply]
      rfl
    · have h2 : ((w.movs m0).layer == a) = false := by
        simp only [beq_eq_false_iff_ne, ne_eq]
        exact fun e => h e.symm
      simp only [if_neg h, h2, Bool.false_eq_true, if_false, Nat.add_zero]

theorem swapLayer_iterate_fields (n : Nat) (l : Layer) :
    (swapLayer^[n] l).posNext = l.posNext ∧ (swapLayer^[n] l).abShape = l.abShape ∧
      (swapLayer^[n] l).color = l.color := by
  induction n with
  | zero => exact ⟨rfl, rfl, rfl⟩
  | succ n ih =>
    rw [Function.iterate_succ_apply']
    exact ih

theorem swapLayer_iterate_pos (n : Nat) (l : Layer) :
    (swapLayer^[n + 1] l).pos = l.posNext := by
  rw [Function.iterate_succ_apply']
  exact (swapLayer_iterate_fields n l).1

theorem swapLayer_iterate_posLast (n : Nat) (l : Layer) (h : l.pos = l.posNext) :
    (swapLayer^[n + 1] l).posLast = l.posNext := by
  rw [Function.iterate_succ_apply']
  cases n with
  | zero => exact h
  | succ k => exact swapLayer_iterate_pos k l

theorem swapLayer_of_stable (l : Layer) (h1 : l.posLast = l.pos) (h2 : l.pos = l.posNext) :
    swapLayer l = l := by
  cases l
  simp_all [swapLayer]

theorem swapLayer_iterate_of_stable (n : Nat) (l : Layer) (h1 : l.posLast = l.pos)
    (h2 : l.pos = l.posNext) : swapLayer^[n] l = l := by
  induction n with
  | zero => rfl
  | succ n ih => rw [Function.iterate_succ_apply', ih, swapLayer_of_stable l h1 h2]

theorem movLayerDraw_layers (ms layers : List Nat) (w : World) :
    (movLayerDraw ms layers w).layers = (swapPositions ms w).layers := by
  rw [movLayerDraw, drawMovLayers_eq]

theorem movLayerDraw_movs (ms layers : List Nat) (w : World) :
    (movLayerDraw ms layers w).movs = w.movs := by
  rw [movLayerDraw, drawMovLayers_eq]
  exact swapPositions_movs ms w

theorem movLayerDraw_bgColor (ms layers : List Nat) (w : World) :
    (movLayerDraw ms layers w).bgColor = w.bgColor := by
  rw [movLayerDraw, drawMovLayers_eq]
  exact swapPositions_bgColor ms w

theorem windowCalls_congr (w1 w2 : World) (layers : List Nat) (hl : w1.layers = w2.layers)
    (hm : w1.movs = w2.movs) (hb : w1.bgColor = w2.bgColor) :
    windowCalls w1 layers = windowCalls w2 layers := by
  funext m
  simp only [windowCalls, firstLayerColor, World.layerOf, hl, hm, hb]

theorem movLayerDraw_lcd (ms layers : List Nat) (w : World) :
    (movLayerDraw ms layers w).lcd =
      w.lcd ++ ms.flatMap (windowCalls (movLayerDraw ms layers w) layers) := by
  rw [windowCalls_congr (movLayerDraw ms layers w) (swapPositions ms w) layers
    (movLayerDraw_layers ms layers w)
    ((movLayerDraw_movs ms layers w).trans (swapPositions_movs ms w).symm)
    ((movLayerDraw_bgColor ms layers w).trans (swapPositions_bgColor ms w).symm)]
  rw [movLayerDraw, drawMovLayers_eq, swapPositions_lcd]

theorem count_pos_of_mem_chain (ms : List Nat) (w : World) (m : Nat) (hm : m ∈ ms) :
    ∃ n : Nat, (ms.map (fun k => (w.movs k).layer)).count (w.movs m).layer = n + 1 := by
  have hmem : (w.movs m).layer ∈ ms.map (fun k => (w.movs k).layer) :=
    List.mem_map_of_mem (fun k => (w.movs k).layer) hm
  have hpos := List.count_pos_iff.mpr hmem
  exact ⟨_, (Nat.succ_pred_eq_of_pos hpos).symm⟩

theorem movLayerDraw_pos_eq_posNext (ms layers : List Nat) (w : World) (m : Nat)
    (hm : m ∈ ms) :
    ((movLayerDraw ms layers w).layerOf m).pos = ((movLayerDraw ms layers w).layerOf m).posNext := by
  simp only [World.layerOf, movLayerDraw_movs, movLayerDraw_layers, swapPositions_layers_iterate]
  obtain ⟨n, hn⟩ := count_pos_of_mem_chain ms w m hm
  rw [hn, swapLayer_iterate_pos, (swapLayer_iterate_fields (n + 1) _).1]

theorem movLayerDraw_twice_stable (ms layers : List Nat) (w : World) (m : Nat) (hm : m ∈ ms) :
    ((movLayerDraw ms layers (movLayerDraw ms layers w)).layerOf m).posLast =
      ((movLayerDraw ms layers (movLayerDraw ms layers w)).layerOf m).pos ∧
    ((movLayerDraw ms layers (movLayerDraw ms layers w)).layerOf m).pos =
      ((movLayerDraw ms layers (movLayerDraw ms layers w)).layerOf m).posNext := by
  refine ⟨?_, movLayerDraw_pos_eq_posNext ms layers _ m hm⟩
  have h1 := movLayerDraw_pos_eq_posNext ms layers w m hm
  generalize movLayerDraw ms layers w = w1 at h1 ⊢
  simp only [World.layerOf, movLayerDraw_movs, movLayerDraw_layers,
    swapPositions_layers_iterate] at h1 ⊢
  obtain ⟨n, hn⟩ := count_pos_of_mem_chain ms w1 m hm
  rw [hn, swapLayer_iterate_pos, swapLayer_iterate_posLast n _ h1]

theorem swapPositions_of_stable (ms : List Nat) (w : World)
    (h : ∀ m ∈ ms, (w.layerOf m).posLast = (w.layerOf m).pos ∧
      (w.layerOf m).pos = (w.layerOf m).posNext) :
    (swapPositions ms w).layers = w.layers := by
  funext a
  rw [swapPositions_layers_iterate]
  by_cases ha : a ∈ ms.map (fun m => (w.movs m).layer)
  · obtain ⟨m, hm, rfl⟩ := List.mem_map.mp ha
    exact swapLayer_iterate_of_stable _ _ (h m hm).1 (h m hm).2
  · rw [List.count_eq_zero_of_not_mem ha]
    rfl

theorem regionUnion_self (b : Region) : regionUnion b b = b := by
  cases b with
  | mk tl br =>
    cases tl
    cases br
    simp [regionUnion]

theorem movLayerDraw_of_stable (ms layers : List Nat) (w : World)
    (h : ∀ m ∈ ms, (w.layerOf m).posLast = (w.layerOf m).pos ∧
      (w.layerOf m).pos = (w.layerOf m).posNext) :
    (movLayerDraw ms layers w).layers = w.layers ∧
    (movLayerDraw ms layers w).movs = w.movs ∧
    (movLayerDraw ms layers w).bgColor = w.bgColor ∧
    (movLayerDraw ms layers w).lcd = w.lcd ++ ms.flatMap (windowCalls w layers) := by
  have hl : (movLayerDraw ms layers w).layers = w.layers :=
    (movLayerDraw_layers ms layers w).trans (swapPositions_of_stable ms w h)
  refine ⟨hl, movLayerDraw_movs ms layers w, movLayerDraw_bgColor ms layers w, ?_⟩
  rw [movLayerDraw_lcd, windowCalls_congr (movLayerDraw ms layers w) w layers hl
    (movLayerDraw_movs ms layers w) (movLayerDraw_bgColor ms layers w)]

theorem movLayerDraw_iterate_of_stable (ms layers : List Nat) (w : World)
    (h : ∀ m ∈ ms, (w.layerOf m).posLast = (w.layerOf m).pos ∧
      (w.layerOf m).pos = (w.layerOf m).posNext) (k : Nat) :
    ((movLayerDraw ms layers)^[k] w).layers = w.layers ∧
    ((movLayerDraw ms layers)^[k] w).movs = w.movs ∧
    ((movLayerDraw ms layers)^[k] w).bgColor = w.bgColor := by
  induction k with
  | zero => exact ⟨rfl, rfl, rfl⟩
  | succ k ih =>
    rw [Function.iterate_succ_apply']
    have hk : ∀ m ∈ ms,
        (((movLayerDraw ms layers)^[k] w).layerOf m).posLast =
          (((movLayerDraw ms layers)^[k] w).layerOf m).pos ∧
        (((movLayerDraw ms layers)^[k] w).layerOf m).pos =
          (((movLayerDraw ms layers)^[k] w).layerOf m).posNext := by
      intro m hm
      simp only [World.layerOf, ih.1, ih.2.1]
      exact h m hm
    have := movLayerDraw_of_stable ms layers _ hk
    exact ⟨this.1.trans ih.1, this.2.1.trans ih.2.1, this.2.2.1.trans ih.2.2⟩

/-- C13: renderer idempotence.  After two consecutive `movLayerDraw` calls (state `w2`)
every moving layer of the chain has `posLast = pos = posNext`; so the second call's dirty
rectangle for each moving layer is exactly the shape's bounds at `pos` (with
`layerGetBounds` as specified), the second call issues that layer's window calls, and
every pixel written for the layer lies inside those bounds.  Any number of further calls
leaves every layer and moving-layer record unchanged, and each further call issues
exactly the driver calls of the second call (same pixels, same colours). -/
theorem movLayerDraw_idempotent (movLayers layers : List Nat) (w : World) :
    let w2 := movLayerDraw movLayers layers (movLayerDraw movLayers layers w)
    (∀ m ∈ movLayers, (w2.layerOf m).posLast = (w2.layerOf m).pos ∧
      (w2.layerOf m).pos = (w2.layerOf m).posNext) ∧
    (∀ m ∈ movLayers, layerGetBounds (w2.layerOf m) =
      (w2.layerOf m).abShape.getBounds (w2.layerOf m).pos) ∧
    w2.lcd = (movLayerDraw movLayers layers w).lcd ++
      movLayers.flatMap (windowCalls w2 layers) ∧
    (∀ m ∈ movLayers, ∀ (pending : List Vec2) (pc : Vec2 × Nat),
      pc ∈ lcdPixelWrites (windowCalls w2 layers m) pending →
      ((w2.layerOf m).abShape.getBounds (w2.layerOf m).pos).contains pc.1) ∧
    (∀ k : Nat,
      ((movLayerDraw movLayers layers)^[k] w2).layers = w2.layers ∧
      ((movLayerDraw movLayers layers)^[k] w2).movs = w2.movs ∧
      (movLayerDraw movLayers layers ((movLayerDraw movLayers layers)^[k] w2)).lcd =
        ((movLayerDraw movLayers layers)^[k] w2).lcd ++
          movLayers.flatMap (windowCalls w2 layers)) := by
  intro w2
  have hst : ∀ m ∈ movLayers, (w2.layerOf m).posLast = (w2.layerOf m).pos ∧
      (w2.layerOf m).pos = (w2.layerOf m).posNext :=
    fun m hm => movLayerDraw_twice_stable movLayers layers w m hm
  have hb : ∀ m ∈ movLayers, layerGetBounds (w2.layerOf m) =
      (w2.layerOf m).abShape.getBounds (w2.layerOf m).pos := by
    intro m hm
    rw [layerGetBounds, (hst m hm).1, regionUnion_self]
  refine ⟨hst, hb, movLayerDraw_lcd movLayers layers _, ?_, ?_⟩
  · intro m hm pending pc hpc
    have h := lcdPixelWrites_windowCalls w2 layers m [] pending
    rw [List.append_nil] at h
    rw [h] at hpc
    simp only [lcdPixelWrites, List.append_nil, List.mem_map] at hpc
    obtain ⟨p, hp, rfl⟩ := hpc
    rw [← hb m hm]
    exact (mem_windowPixels_iff _ _).mp hp
  · intro k
    have hk := movLayerDraw_iterate_of_stable movLayers layers w2 hst k
    refine ⟨hk.1, hk.2.1, ?_⟩
    have hstk : ∀ m ∈ movLayers,
        (((movLayerDraw movLayers layers)^[k] w2).layerOf m).posLast =
          (((movLayerDraw movLayers layers)^[k] w2).layerOf m).pos ∧
        (((movLayerDraw movLayers layers)^[k] w2).layerOf m).pos =
          (((movLayerDraw movLayers layers)^[k] w2).layerOf m).posNext := by
      intro m hm
      simp only [World.layerOf, hk.1, hk.2.1]
      exact hst m hm
    rw [(movLayerDraw_of_stable movLayers layers _ hstk).2.2.2,
      windowCalls_congr _ w2 layers hk.1 hk.2.1 hk.2.2]

/-! ## Theorems: scores -/

theorem uintIncr_iterate_of_lt (k p : Nat) (h : p + k < 65536) :
    uintIncr^[k] p = p + k := by
  induction k generalizing p with
  | zero => rfl
  | succ k ih =>
    rw [Function.iterate_succ_apply, ih (uintIncr p) (by unfold uintIncr; omega)]
    unfold uintIncr
    omega

theorem mlAdvanceOne_p1Score_iterate (ml : Nat) (fence : Region) (w : World) :
    ∃ k : Nat, k ≤ 2 ∧ (mlAdvanceOne ml fence w).p1Score = uintIncr^[k] w.p1Score := by
  rw [mlAdvanceOne_p1Score]
  split_ifs
  · exact ⟨2, le_refl _, rfl⟩
  · exact ⟨1, by omega, rfl⟩
  · exact ⟨1, by omega, rfl⟩
  · exact ⟨0, by omega, rfl⟩

theorem mlAdvanceOne_p2Score_iterate (ml : Nat) (fence : Region) (w : World) :
    ∃ k : Nat, k ≤ 2 ∧ (mlAdvanceOne ml fence w).p2Score = uintIncr^[k] w.p2Score := by
  rw [mlAdvanceOne_p2Score]
  split_ifs
  · exact ⟨2, le_refl _, rfl⟩
  · exact ⟨1, by omega, rfl⟩
  · exact ⟨1, by omega, rfl⟩
  · exact ⟨0, by omega, rfl⟩

theorem mlAdvance_p1Score_iterate (ms : List Nat) (fence : Region) (w : World) :
    ∃ k : Nat, k ≤ 2 * ms.length ∧ (mlAdvance ms fence w).p1Score = uintIncr^[k] w.p1Score := by
  induction ms generalizing w with
  | nil => exact ⟨0, by simp, rfl⟩
  | cons m rest ih =>
    obtain ⟨k1, hk1, h1⟩ := mlAdvanceOne_p1Score_iterate m fence w
    obtain ⟨k2, hk2, h2⟩ := ih (mlAdvanceOne m fence w)
    refine ⟨k2 + k1, by simp only [List.length_cons]; omega, ?_⟩
    rw [mlAdvance, h2, h1, Function.iterate_add_apply]

theorem mlAdvance_p2Score_iterate (ms : List Nat) (fence : Region) (w : World) :
    ∃ k : Nat, k ≤ 2 * ms.length ∧ (mlAdvance ms fence w).p2Score = uintIncr^[k] w.p2Score := by
  induction ms generalizing w with
  | nil => exact ⟨0, by simp, rfl⟩
  | cons m rest ih =>
    obtain ⟨k1, hk1, h1⟩ := mlAdvanceOne_p2Score_iterate m fence w
    obtain ⟨k2, hk2, h2⟩ := ih (mlAdvanceOne m fence w)
    refine ⟨k2 + k1, by simp only [List.length_cons]; omega, ?_⟩
    rw [mlAdvance, h2, h1, Function.iterate_add_apply]

/-- C14: score monotonicity and the double-violation edge case.  For every chain and
fence, if each counter is at least two increments per moving layer below the 16-bit
wrap-around limit, neither `p1Score` nor `p2Score` is smaller after `mlAdvance` than
before (and neither grows by more than two per moving layer).  For a single layer whose
candidate bounds exceed the fence on both the top and the bottom edge of the vertical
axis while staying inside it horizontally, one `mlAdvance` increments `p1Score` once and
`p2Score` once (by exactly 1 each below the limit) and negates the vertical velocity
once, leaving the horizontal velocity alone. -/
theorem mlAdvance_scores_monotone (movLayers : List Nat) (fence : Region) (w : World)
    (h1 : w.p1Score + 2 * movLayers.length < 65536)
    (h2 : w.p2Score + 2 * movLayers.length < 65536) :
    w.p1Score ≤ (mlAdvance movLayers fence w).p1Score ∧
    (mlAdvance movLayers fence w).p1Score ≤ w.p1Score + 2 * movLayers.length ∧
    w.p2Score ≤ (mlAdvance movLayers fence w).p2Score ∧
    (mlAdvance movLayers fence w).p2Score ≤ w.p2Score + 2 * movLayers.length ∧
    (∀ m : Nat, ¬ exceedsFence (candidateBounds w m) fence 0 →
      (candidateBounds w m).topLeft.ax1 < fence.topLeft.ax1 →
      (candidateBounds w m).botRight.ax1 > fence.botRight.ax1 →
      (mlAdvance [m] fence w).p1Score = (w.p1Score + 1) % 65536 ∧
      (mlAdvance [m] fence w).p2Score = (w.p2Score + 1) % 65536 ∧
      (w.p1Score < 65535 → (mlAdvance [m] fence w).p1Score = w.p1Score + 1) ∧
      (w.p2Score < 65535 → (mlAdvance [m] fence w).p2Score = w.p2Score + 1) ∧
      ((mlAdvance [m] fence w).movs m).velocity.ax1 = -(w.movs m).velocity.ax1 ∧
      ((mlAdvance [m] fence w).movs m).velocity.ax0 = (w.movs m).velocity.ax0) := by
  obtain ⟨k1, hk1, e1⟩ := mlAdvance_p1Score_iterate movLayers fence w
  obtain ⟨k2, hk2, e2⟩ := mlAdvance_p2Score_iterate movLayers fence w
  rw [uintIncr_iterate_of_lt k1 _ (by omega)] at e1
  rw [uintIncr_iterate_of_lt k2 _ (by omega)] at e2
  refine ⟨by omega, by omega, by omega, by omega, ?_⟩
  intro m hx htop hbot
  have hy : exceedsFence (candidateBounds w m) fence 1 := Or.inl htop
  have hp1 : (mlAdvance [m] fence w).p1Score = (w.p1Score + 1) % 65536 := by
    simp only [mlAdvance, mlAdvanceOne_p1Score]
    simp [hx, hy, htop, uintIncr]
  have hp2 : (mlAdvance [m] fence w).p2Score = (w.p2Score + 1) % 65536 := by
    simp only [mlAdvance, mlAdvanceOne_p2Score]
    simp [hx, hy, hbot, uintIncr]
  refine ⟨hp1, hp2, fun h => by rw [hp1]; omega, fun h => by rw [hp2]; omega, ?_, ?_⟩
  · simp only [mlAdvance, mlAdvanceOne_movs, if_true, reflectVelocity, if_pos hy]
  · simp only [mlAdvance, mlAdvanceOne_movs, if_true, reflectVelocity, if_neg hx]

/-- Witness of C14: a rectangle of half-height 80 pending at (64,80) with velocity (0,3)
has candidate bounds (60,3)-(68,163), beyond the fence (10,10)-(118,150) at the top and at
the bottom but not at the sides; both scores go from 0 to 1 and the vertical velocity from
3 to -3. -/
theorem mlAdvance_scores_monotone_witness :
    oversizedWorld.p1Score + 2 * [ML3].length < 65536 ∧
    oversizedWorld.p2Score + 2 * [ML3].length < 65536 ∧
    oversizedWorld.p1Score ≤ (mlAdvance [ML3] sampleFence oversizedWorld).p1Score ∧
    (mlAdvance [ML3] sampleFence oversizedWorld).p1Score = 0 + 1 ∧
    (mlAdvance [ML3] sampleFence oversizedWorld).p2Score = 0 + 1 ∧
    ((mlAdvance [ML3] sampleFence oversizedWorld).movs ML3).velocity.ax1 = -3 :=
  have h := mlAdvance_scores_monotone [ML3] sampleFence oversizedWorld (by decide) (by decide)
  have hd := h.2.2.2.2 ML3 (by decide) (by decide) (by decide)
  ⟨by decide, by decide, h.1, hd.2.2.1 (by decide), hd.2.2.2.1 (by decide), hd.2.2.2.2.1⟩

/-! ## Theorems: tick gating -/

theorem wdt_c_handler_quiet (switches : Nat) (v : World) (h : v.count ≠ 14) :
    wdt_c_handler switches v =
      { v with count := v.count + 1, buzzer := v.buzzer ++ [0], greenLed := false } := by
  unfold wdt_c_handler
  have hne : ¬ (v.count + 1 = 15) := by omega
  simp only [buzzer_set_period, if_neg hne]

theorem wdt_c_handler_acting (switches : Nat) (v : World) (h : v.count = 14) :
    wdt_c_handler switches v =
      { tickBody switches
          (buzzer_set_period 0 { v with greenLed := true, count := 15 }) with
        greenLed := false } := by
  unfold wdt_c_handler
  simp only [buzzer_set_period, h]
  norm_num

theorem swapPositions_count (ms : List Nat) (w : World) :
    (swapPositions ms w).count = w.count := by
  induction ms generalizing w with
  | nil => rfl
  | cons m rest ih => rw [swapPositions, ih]; rfl

theorem renderPass_count (v : World) : (renderPass v).count = v.count := by
  unfold renderPass
  split_ifs
  · rfl
  · rw [movLayerDraw, drawMovLayers_eq]
    exact swapPositions_count _ _

theorem step_count (v : World) (st : Step) (c : Nat) (hc : v.count = (c : Int)) (hlt : c < 15) :
    (step v st).count = (((c + numTicks [st]) % 15 : Nat) : Int) := by
  cases st with
  | tick switches =>
    simp only [step, numTicks]
    by_cases h : c = 14
    · subst h
      rw [wdt_c_handler_acting switches v (by simpa using hc)]
      rfl
    · rw [wdt_c_handler_quiet switches v (by omega)]
      simp only [hc]
      have : (c + (0 + 1)) % 15 = c + 1 := by omega
      rw [this]
      push_cast
      ring
  | render =>
    simp only [step, numTicks, renderPass_count, hc, Nat.add_zero]
    rw [Nat.mod_eq_of_lt hlt]

theorem numTicks_cons (st : Step) (rest : List Step) :
    numTicks (st :: rest) = numTicks [st] + numTicks rest := by
  cases st <;> simp [numTicks, Nat.add_comm]

theorem run_count (steps : List Step) (v : World) (c : Nat) (hc : v.count = (c : Int))
    (hlt : c < 15) :
    (run steps v).count = (((c + numTicks steps) % 15 : Nat) : Int) := by
  induction steps generalizing v c with
  | nil =>
    simp only [run, List.foldl_nil, numTicks, Nat.add_zero, hc]
    rw [Nat.mod_eq_of_lt hlt]
  | cons st rest ih =>
    have h1 := step_count v st c hc hlt
    have h2 := ih (step v st) ((c + numTicks [st]) % 15) h1 (Nat.mod_lt _ (by omega))
    simp only [run, List.foldl_cons] at h2 ⊢
    rw [h2, numTicks_cons st rest]
    congr 1
    omega

/-- C15: tick gating.  Starting from `count = 0`, after any earlier handler invocations
and render passes the counter is the number of earlier invocations modulo 15.  If the
next invocation is a 15th one, it performs the tick logic (`tickBody`: end-of-match
check, `redrawScreen = 1`, `mlAdvance`, both `bouncePaddle` calls, switch sampling, after
`buzzer_set_period(0)`) and leaves the counter at 0; otherwise it leaves every layer and
moving-layer record, both scores, the redraw flag and the LCD log unchanged, appends
`buzzer_set_period(0)` to the buzzer log and only advances the counter (the LED is
switched off when the handler returns, as after every invocation). -/
theorem wdt_c_handler_gating (w : World) (h0 : w.count = 0) (steps : List Step)
    (switches : Nat) :
    (run steps w).count = ((numTicks steps % 15 : Nat) : Int) ∧
    ((numTicks steps + 1) % 15 = 0 →
      wdt_c_handler switches (run steps w) =
        { tickBody switches
            (buzzer_set_period 0 { run steps w with greenLed := true, count := 15 }) with
          greenLed := false } ∧
      (wdt_c_handler switches (run steps w)).count = 0) ∧
    ((numTicks steps + 1) % 15 ≠ 0 →
      (wdt_c_handler switches (run steps w)).layers = (run steps w).layers ∧
      (wdt_c_handler switches (run steps w)).movs = (run steps w).movs ∧
      (wdt_c_handler switches (run steps w)).p1Score = (run steps w).p1Score ∧
      (wdt_c_handler switches (run steps w)).p2Score = (run steps w).p2Score ∧
      (wdt_c_handler switches (run steps w)).redrawScreen = (run steps w).redrawScreen ∧
      (wdt_c_handler switches (run steps w)).lcd = (run steps w).lcd ∧
      (wdt_c_handler switches (run steps w)).buzzer = (run steps w).buzzer ++ [0] ∧
      (wdt_c_handler switches (run steps w)).count = (run steps w).count + 1 ∧
      (wdt_c_handler switches (run steps w)).greenLed = false) := by
  have hc := run_count steps w 0 (by simpa using h0) (by omega)
  rw [Nat.zero_add] at hc
  refine ⟨hc, fun h => ?_, fun h => ?_⟩
  · have h14 : (run steps w).count = 14 := by
      rw [hc]
      have : numTicks steps % 15 = 14 := by omega
      rw [this]
      rfl
    rw [wdt_c_handler_acting switches _ h14]
    exact ⟨rfl, rfl⟩
  · have h14 : (run steps w).count ≠ 14 := by
      rw [hc]
      have : numTicks steps % 15 ≠ 14 := by omega
      exact_mod_cast this
    rw [wdt_c_handler_quiet switches _ h14]
    exact ⟨rfl, rfl, rfl, rfl, rfl, rfl, rfl, rfl, rfl⟩

/-- Witness of C15: from the initial state of the program, the 15th invocation after 14
earlier ones leaves the counter at 0 and sets the redraw flag, and the 2nd invocation
after one earlier one (with a render pass in between) changes no score. -/
theorem wdt_c_handler_gating_witness :
    (initWorld 128 160 (abCircle 4)).count = 0 ∧
    (wdt_c_handler 15 (run (List.replicate 14 (Step.tick 15))
      (initWorld 128 160 (abCircle 4)))).count = 0 ∧
    (wdt_c_handler 15 (run [Step.tick 15, Step.render]
      (initWorld 128 160 (abCircle 4)))).p1Score =
      (run [Step.tick 15, Step.render] (initWorld 128 160 (abCircle 4))).p1Score :=
  ⟨rfl,
    ((wdt_c_handler_gating (initWorld 128 160 (abCircle 4)) rfl
      (List.replicate 14 (Step.tick 15)) 15).2.1 (by decide)).2,
    ((wdt_c_handler_gating (initWorld 128 160 (abCircle 4)) rfl
      [Step.tick 15, Step.render] 15).2.2 (by decide)).2.2.1⟩

/-! ## Theorems: the acting tick -/

theorem mlAdvanceOne_game_congr (m : Nat) (fence : Region) (w1 w2 : World)
    (h : w1.game = w2.game) :
    (mlAdvanceOne m fence w1).game = (mlAdvanceOne m fence w2).game := by
  simp only [World.game, Prod.mk.injEq] at h ⊢
  obtain ⟨hl, hm, h1, h2⟩ := h
  have hc : candidateBounds w1 m = candidateBounds w2 m := by
    simp only [candidateBounds, World.layerOf, hl, hm]
  refine ⟨?_, ?_, ?_, ?_⟩
  · simp only [mlAdvanceOne_layers, hc, World.layerOf, hl, hm]
  · simp only [mlAdvanceOne_movs, hc, hm]
  · simp only [mlAdvanceOne_p1Score, hc, h1]
  · simp only [mlAdvanceOne_p2Score, hc, h2]

theorem mlAdvance_game_congr (ms : List Nat) (fence : Region) (w1 w2 : World)
    (h : w1.game = w2.game) :
    (mlAdvance ms fence w1).game = (mlAdvance ms fence w2).game := by
  induction ms generalizing w1 w2 with
  | nil => exact h
  | cons m rest ih =>
    rw [mlAdvance, mlAdvance]
    exact ih _ _ (mlAdvanceOne_game_congr m fence w1 w2 h)

theorem cornerContact_congr (ball paddle : Nat) (w1 w2 : World) (h : w1.game = w2.game) :
    cornerContact w1 ball paddle = cornerContact w2 ball paddle := by
  simp only [World.game, Prod.mk.injEq] at h
  obtain ⟨hl, hm, _, _⟩ := h
  simp only [cornerContact, layerContains, World.layerOf, hl, hm]

theorem bouncePaddle_game_congr (ball paddle : Nat) (w1 w2 : World) (h : w1.game = w2.game) :
    (bouncePaddle ball paddle w1).game = (bouncePaddle ball paddle w2).game := by
  have hc := cornerContact_congr ball paddle w1 w2 h
  simp only [World.game, Prod.mk.injEq] at h
  obtain ⟨hl, hm, h1, h2⟩ := h
  cases hit : cornerContact w1 ball paddle
  · rw [bouncePaddle_miss ball paddle w1 hit, bouncePaddle_miss ball paddle w2 (hc ▸ hit)]
    simp only [World.game, hl, hm, h1, h2]
  · rw [bouncePaddle_hit ball paddle w1 hit, bouncePaddle_hit ball paddle w2 (hc ▸ hit)]
    simp only [World.game, buzzer_set_period, World.setMov, hl, hm, h1, h2]

theorem bouncePaddle_scores_lcd (ball paddle : Nat) (w : World) :
    (bouncePaddle ball paddle w).p1Score = w.p1Score ∧
    (bouncePaddle ball paddle w).p2Score = w.p2Score ∧
    (bouncePaddle ball paddle w).lcd = w.lcd ∧
    (bouncePaddle ball paddle w).redrawScreen = w.redrawScreen := by
  cases hit : cornerContact w ball paddle
  · rw [bouncePaddle_miss ball paddle w hit]
    exact ⟨rfl, rfl, rfl, rfl⟩
  · rw [bouncePaddle_hit ball paddle w hit]
    exact ⟨rfl, rfl, rfl, rfl⟩

theorem applySwitches_game_congr (switches : Nat) (w1 w2 : World) (h : w1.game = w2.game) :
    (applySwitches switches w1).game = (applySwitches switches w2).game := by
  simp only [World.game, Prod.mk.injEq] at h
  obtain ⟨hl, hm, h1, h2⟩ := h
  unfold applySwitches
  cases str switches 0 <;> cases str switches 1 <;> cases str switches 2 <;>
    cases str switches 3 <;>
    simp [World.game, setVelocityAxis, World.setMov, hl, hm, h1, h2]

theorem applySwitches_fields (switches : Nat) (w : World) :
    (applySwitches switches w).layers = w.layers ∧
    (applySwitches switches w).p1Score = w.p1Score ∧
    (applySwitches switches w).p2Score = w.p2Score ∧
    (applySwitches switches w).lcd = w.lcd ∧
    (applySwitches switches w).redrawScreen = w.redrawScreen := by
  unfold applySwitches
  cases str switches 0 <;> cases str switches 1 <;> cases str switches 2 <;>
    cases str switches 3 <;>
    simp [setVelocityAxis, World.setMov]

theorem tickGame_game_congr (switches : Nat) (w1 w2 : World) (h : w1.game = w2.game)
    (hf : w1.fieldFence = w2.fieldFence) :
    (tickGame switches w1).game = (tickGame switches w2).game := by
  unfold tickGame
  rw [hf]
  exact applySwitches_game_congr _ _ _ (bouncePaddle_game_congr _ _ _ _
    (bouncePaddle_game_congr _ _ _ _ (mlAdvance_game_congr _ _ _ _ h)))

theorem tickGame_scores (switches : Nat) (w : World) :
    (tickGame switches w).p1Score = (mlAdvance [ML0, ML1, ML3] w.fieldFence w).p1Score ∧
    (tickGame switches w).p2Score = (mlAdvance [ML0, ML1, ML3] w.fieldFence w).p2Score := by
  unfold tickGame
  rw [(applySwitches_fields _ _).2.1, (applySwitches_fields _ _).2.2.1,
    (bouncePaddle_scores_lcd _ _ _).1, (bouncePaddle_scores_lcd _ _ _).2.1,
    (bouncePaddle_scores_lcd _ _ _).1, (bouncePaddle_scores_lcd _ _ _).2.1]
  exact ⟨rfl, rfl⟩

theorem tickStart_fields (v : World) :
    (tickStart v).game = v.game ∧ (tickStart v).fieldFence = v.fieldFence ∧
    (tickStart v).lcd = v.lcd ++ (if v.p1Score > 2 ∨ v.p2Score > 2 then overlayCalls else []) ∧
    (tickStart v).redrawScreen = 1 := by
  unfold tickStart
  by_cases h : v.p1Score > 2 ∨ v.p2Score > 2
  · rw [if_pos h, if_pos h]
    exact ⟨rfl, rfl, by simp [drawString5x7, clearScreen, overlayCalls], rfl⟩
  · rw [if_neg h, if_neg h]
    exact ⟨rfl, rfl, by simp, rfl⟩

theorem tickBody_eq (switches : Nat) (v : World) :
    tickBody switches v =
      { applySwitches switches (bouncePaddle ML3 ML0 (bouncePaddle ML3 ML1
          (drawString5x7 60 150
            (tot (mlAdvance [ML0, ML1, ML3] (tickStart v).fieldFence (tickStart v)).p1Score
              (mlAdvance [ML0, ML1, ML3] (tickStart v).fieldFence (tickStart v)).p2Score)
            COLOR_RED COLOR_WHITE
            (mlAdvance [ML0, ML1, ML3] (tickStart v).fieldFence (tickStart v))))) with
        count := 0 } := rfl

theorem tickBody_game (switches : Nat) (v : World) :
    (tickBody switches v).game = (tickGame switches v).game := by
  rw [tickBody_eq]
  have hs := tickStart_fields v
  have h3 : (drawString5x7 60 150
      (tot (mlAdvance [ML0, ML1, ML3] (tickStart v).fieldFence (tickStart v)).p1Score
        (mlAdvance [ML0, ML1, ML3] (tickStart v).fieldFence (tickStart v)).p2Score)
      COLOR_RED COLOR_WHITE
      (mlAdvance [ML0, ML1, ML3] (tickStart v).fieldFence (tickStart v))).game =
      (mlAdvance [ML0, ML1, ML3] v.fieldFence v).game := by
    rw [hs.2.1]
    exact mlAdvance_game_congr _ _ _ _ hs.1
  unfold tickGame
  exact applySwitches_game_congr _ _ _ (bouncePaddle_game_congr _ _ _ _
    (bouncePaddle_game_congr _ _ _ _ h3))

theorem tickBody_lcd (switches : Nat) (v : World) :
    (tickBody switches v).lcd =
      v.lcd ++ (if v.p1Score > 2 ∨ v.p2Score > 2 then overlayCalls else []) ++
        [LcdCall.drawString5x7 60 150
          (tot (tickGame switches v).p1Score (tickGame switches v).p2Score)
          COLOR_RED COLOR_WHITE] := by
  have hs := tickStart_fields v
  have hg := mlAdvance_game_congr [ML0, ML1, ML3] v.fieldFence (tickStart v) v hs.1
  simp only [World.game, Prod.mk.injEq] at hg
  have ho := mlAdvance_others [ML0, ML1, ML3] v.fieldFence (tickStart v)
  simp only [World.others, Prod.mk.injEq] at ho
  rw [tickBody_eq]
  show (applySwitches switches _).lcd = _
  rw [(applySwitches_fields _ _).2.2.2.1, (bouncePaddle_scores_lcd _ _ _).2.2.1,
    (bouncePaddle_scores_lcd _ _ _).2.2.1, hs.2.1]
  show (mlAdvance [ML0, ML1, ML3] v.fieldFence (tickStart v)).lcd ++ _ = _
  rw [ho.2.2.2.2.2.1, hs.2.2.1, hg.2.2.1, hg.2.2.2, (tickGame_scores switches v).1,
    (tickGame_scores switches v).2]

theorem tickBody_redrawScreen (switches : Nat) (v : World) :
    (tickBody switches v).redrawScreen = 1 := by
  have ho := mlAdvance_others [ML0, ML1, ML3] (tickStart v).fieldFence (tickStart v)
  simp only [World.others, Prod.mk.injEq] at ho
  rw [tickBody_eq]
  show (applySwitches switches _).redrawScreen = _
  rw [(applySwitches_fields _ _).2.2.2.2, (bouncePaddle_scores_lcd _ _ _).2.2.2,
    (bouncePaddle_scores_lcd _ _ _).2.2.2]
  show (mlAdvance [ML0, ML1, ML3] (tickStart v).fieldFence (tickStart v)).redrawScreen = _
  rw [ho.2.1]
  exact (tickStart_fields v).2.2.2

theorem numTicks_map_tick (sws : List Nat) : numTicks (sws.map Step.tick) = sws.length := by
  induction sws with
  | nil => rfl
  | cons a rest ih => simp [numTicks, ih]

/-- C16: end-of-match is an overlay only.  In an acting tick (counter at 14) the overlay
calls (`clearScreen`, then the match message) are issued if and only if `p1Score > 2` or
`p2Score > 2`; in either case the handler sets `redrawScreen` to 1, leaves the layer
records, the moving-layer records and both scores exactly as `mlAdvance` on the full
chain, `bouncePaddle` for both paddles and the switch mapping leave them (`tickGame`),
draws the score text and resets the counter to 0.  No score value stops the ticking: from
any state reached from a state with counter 0, fewer than 15 further invocations bring
the counter to 14, where the next invocation is an acting tick again. -/
theorem wdt_c_handler_overlay_only (switches : Nat) (w : World) (hact : w.count = 14) :
    (wdt_c_handler switches w).lcd =
      w.lcd ++ (if w.p1Score > 2 ∨ w.p2Score > 2 then overlayCalls else []) ++
        [LcdCall.drawString5x7 60 150
          (tot (tickGame switches w).p1Score (tickGame switches w).p2Score)
          COLOR_RED COLOR_WHITE] ∧
    (wdt_c_handler switches w).redrawScreen = 1 ∧
    (wdt_c_handler switches w).layers = (tickGame switches w).layers ∧
    (wdt_c_handler switches w).movs = (tickGame switches w).movs ∧
    (wdt_c_handler switches w).p1Score = (tickGame switches w).p1Score ∧
    (wdt_c_handler switches w).p2Score = (tickGame switches w).p2Score ∧
    (wdt_c_handler switches w).count = 0 ∧
    (∀ (w0 : World) (steps : List Step), w0.count = 0 →
      ∃ k : Nat, k < 15 ∧ ∀ sws : List Nat, sws.length = k →
        (run (sws.map Step.tick) (run steps w0)).count = 14) := by
  have hg0 : (buzzer_set_period 0 { w with greenLed := true, count := 15 }).game = w.game := rfl
  have hg := (tickBody_game switches
    (buzzer_set_period 0 { w with greenLed := true, count := 15 })).trans
    (tickGame_game_congr switches _ w hg0 rfl)
  simp only [World.game, Prod.mk.injEq] at hg
  have hl := tickBody_lcd switches (buzzer_set_period 0 { w with greenLed := true, count := 15 })
  have hs := tickGame_game_congr switches
    (buzzer_set_period 0 { w with greenLed := true, count := 15 }) w hg0 rfl
  simp only [World.game, Prod.mk.injEq] at hs
  rw [hs.2.2.1, hs.2.2.2] at hl
  rw [wdt_c_handler_acting switches w hact]
  refine ⟨hl, tickBody_redrawScreen switches _, hg.1, hg.2.1, hg.2.2.1, hg.2.2.2, rfl, ?_⟩
  intro w0 steps h0
  have hc := run_count steps w0 0 (by simpa using h0) (by omega)
  rw [Nat.zero_add] at hc
  refine ⟨14 - numTicks steps % 15, by omega, fun sws hlen => ?_⟩
  rw [run_count (sws.map Step.tick) (run steps w0) (numTicks steps % 15) hc
    (Nat.mod_lt _ (by omega)), numTicks_map_tick, hlen]
  have : (numTicks steps % 15 + (14 - numTicks steps % 15)) % 15 = 14 := by omega
  rw [this]
  rfl

/-- Witness of C16: with `p1Score` already 3 the acting tick draws the overlay, still
advances the ball, which crosses the top edge, so `p1Score` becomes 4, and sets the
redraw flag. -/
theorem wdt_c_handler_overlay_only_witness :
    matchOverWorld.count = 14 ∧ matchOverWorld.p1Score > 2 ∧
    (wdt_c_handler 15 matchOverWorld).p1Score = 4 ∧
    (wdt_c_handler 15 matchOverWorld).redrawScreen = 1 ∧
    (wdt_c_handler 15 matchOverWorld).lcd =
      overlayCalls ++ [LcdCall.drawString5x7 60 150 none COLOR_RED COLOR_WHITE] :=
  have h := wdt_c_handler_overlay_only 15 matchOverWorld rfl
  ⟨rfl, by decide, h.2.2.2.2.1.trans (by decide), h.2.1, h.1.trans (by decide)⟩

/-! ## Theorems: fence containment -/

/-- C17: fence containment is preserved by `mlAdvance`.  For a chain whose entries refer
to pairwise distinct layers, a moving layer of it whose shape's bounds are the centre
minus and plus fixed half-extents (rectangles and circles), every fence and each axis: if
the bounds at the layer's `posNext` lie inside the fence on that axis before the call and
twice the absolute value of the velocity component on that axis is at most the fence's
extent minus the shape's extent on that axis, the bounds at the new `posNext` lie inside
the fence on that axis after the call. -/
theorem mlAdvance_stays_in_fence (movLayers : List Nat) (fence : Region) (w : World)
    (hd : (movLayers.map (fun m => (w.movs m).layer)).Nodup)
    (m : Nat) (hm : m ∈ movLayers) (half : Vec2)
    (hshape : ∀ c : Vec2,
      (w.layerOf m).abShape.getBounds c = ⟨vec2Sub c half, vec2Add c half⟩)
    (axis : Nat) (hax : axis < 2)
    (hin : ¬ exceedsFence ((w.layerOf m).abShape.getBounds (w.layerOf m).posNext) fence axis)
    (hv : 2 * |(w.movs m).velocity.axes axis| ≤
      (fence.botRight.axes axis - fence.topLeft.axes axis) -
        (((w.layerOf m).abShape.getBounds (w.layerOf m).posNext).botRight.axes axis -
          ((w.layerOf m).abShape.getBounds (w.layerOf m).posNext).topLeft.axes axis)) :
    ¬ exceedsFence
      (((mlAdvance movLayers fence w).layerOf m).abShape.getBounds
        ((mlAdvance movLayers fence w).layerOf m).posNext) fence axis := by
  have hl := (mlAdvance_local movLayers fence w hd m hm).2
  have hlay : (mlAdvance movLayers fence w).layerOf m =
      { w.layerOf m with
        posNext := bouncePosition (candidateBounds w m) fence
          (vec2Add (w.layerOf m).posNext (w.movs m).velocity) (w.movs m).velocity } := by
    simp only [World.layerOf, mlAdvance_movs_layer] at hl ⊢
    rw [hl, mlAdvanceOne_layers]
    simp [World.layerOf]
  rw [hlay]
  have h1 := le_abs_self ((w.movs m).velocity.axes axis)
  have h2 := neg_le_abs ((w.movs m).velocity.axes axis)
  generalize |(w.movs m).velocity.axes axis| = a at hv h1 h2
  simp only [hshape, candidateBounds, exceedsFence, bouncePosition, vec2Add, vec2Sub,
    Vec2.axes] at hin hv h1 h2 ⊢
  have h01 : axis = 0 ∨ axis = 1 := by omega
  rcases h01 with rfl | rfl
  · simp only [if_true, Nat.one_ne_zero, if_false] at hin hv h1 h2 ⊢
    split_ifs <;> omega
  · simp only [if_true, Nat.one_ne_zero, if_false] at hin hv h1 h2 ⊢
    split_ifs <;> omega

/-- Witness of C17: in the three-layer chain the ball of radius 4 pending at (110,80) with
velocity (5,3) bounces off the right wall and ends with horizontal bounds inside the
fence. -/
theorem mlAdvance_stays_in_fence_witness :
    ¬ exceedsFence ((abCircle 4).getBounds ⟨110, 80⟩) sampleFence 0 ∧
    exceedsFence (candidateBounds (sampleWorld ⟨110, 80⟩ ⟨110, 80⟩ ⟨5, 3⟩) ML3) sampleFence 0 ∧
    ¬ exceedsFence
      (((mlAdvance [ML0, ML1, ML3] sampleFence
          (sampleWorld ⟨110, 80⟩ ⟨110, 80⟩ ⟨5, 3⟩)).layerOf ML3).abShape.getBounds
        ((mlAdvance [ML0, ML1, ML3] sampleFence
          (sampleWorld ⟨110, 80⟩ ⟨110, 80⟩ ⟨5, 3⟩)).layerOf ML3).posNext) sampleFence 0 :=
  ⟨by decide, by decide,
    mlAdvance_stays_in_fence [ML0, ML1, ML3] sampleFence
      (sampleWorld ⟨110, 80⟩ ⟨110, 80⟩ ⟨5, 3⟩) (by decide) ML3 (by decide) ⟨4, 4⟩
      (fun _ => rfl) 0 (by decide) (by decide) (by decide)⟩

/-! ## Theorems: reachable states -/

theorem wdt_c_handler_acting_lcd (switches : Nat) (w : World) (hact : w.count = 14) :
    (wdt_c_handler switches w).lcd =
      w.lcd ++ (if w.p1Score > 2 ∨ w.p2Score > 2 then overlayCalls else []) ++
        [LcdCall.drawString5x7 60 150
          (tot (tickGame switches w).p1Score (tickGame switches w).p2Score)
          COLOR_RED COLOR_WHITE] := by
  have hg0 : (buzzer_set_period 0 { w with greenLed := true, count := 15 }).game = w.game := rfl
  have hl := tickBody_lcd switches (buzzer_set_period 0 { w with greenLed := true, count := 15 })
  have hs := tickGame_game_congr switches
    (buzzer_set_period 0 { w with greenLed := true, count := 15 }) w hg0 rfl
  simp only [World.game, Prod.mk.injEq] at hs
  rw [hs.2.2.1, hs.2.2.2] at hl
  rw [wdt_c_handler_acting switches w hact]
  exact hl

theorem wdt_c_handler_acting_game (switches : Nat) (w : World) (hact : w.count = 14) :
    (wdt_c_handler switches w).game = (tickGame switches w).game := by
  have hg0 : (buzzer_set_period 0 { w with greenLed := true, count := 15 }).game = w.game := rfl
  rw [wdt_c_handler_acting switches w hact]
  exact (tickBody_game switches _).trans (tickGame_game_congr switches _ w hg0 rfl)

theorem swapPositions_core_congr (ms : List Nat) (w1 w2 : World) (h : w1.core = w2.core) :
    (swapPositions ms w1).core = (swapPositions ms w2).core := by
  induction ms generalizing w1 w2 with
  | nil => exact h
  | cons m rest ih =>
    rw [swapPositions, swapPositions]
    apply ih
    simp only [World.core, World.game, Prod.mk.injEq] at h ⊢
    obtain ⟨⟨hl, hm, h1, h2⟩, hc, hr, hf⟩ := h
    simp only [World.setLayer, hl, hm, h1, h2, hc, hr, hf, and_self]

theorem renderPass_core (v : World) : (renderPass v).core = (renderCore v).core := by
  unfold renderPass renderCore
  by_cases h : v.redrawScreen = 0
  · rw [if_pos h, if_pos h]
    rfl
  · rw [if_neg h, if_neg h, movLayerDraw, drawMovLayers_eq]
    exact swapPositions_core_congr _ _ _ rfl

theorem renderCore_core_congr (w1 w2 : World) (h : w1.core = w2.core) :
    (renderCore w1).core = (renderCore w2).core := by
  have hr : w1.redrawScreen = w2.redrawScreen := by
    simp only [World.core, Prod.mk.injEq] at h
    exact h.2.2.1
  unfold renderCore
  by_cases h0 : w2.redrawScreen = 0
  · rw [if_pos h0, if_pos (hr.trans h0)]
    exact h
  · rw [if_neg h0, if_neg (fun e => h0 (hr ▸ e))]
    apply swapPositions_core_congr
    simp only [World.core, World.game, Prod.mk.injEq] at h ⊢
    obtain ⟨⟨hl, hm, h1, h2⟩, hc, _, hf⟩ := h
    simp only [hl, hm, h1, h2, hc, hf, and_self]

theorem bouncePaddle_fieldFence (ball paddle : Nat) (w : World) :
    (bouncePaddle ball paddle w).fieldFence = w.fieldFence := by
  cases hit : cornerContact w ball paddle
  · rw [bouncePaddle_miss ball paddle w hit]
  · rw [bouncePaddle_hit ball paddle w hit]
    rfl

theorem applySwitches_fieldFence (switches : Nat) (w : World) :
    (applySwitches switches w).fieldFence = w.fieldFence := by
  unfold applySwitches
  cases str switches 0 <;> cases str switches 1 <;> cases str switches 2 <;>
    cases str switches 3 <;>
    simp [setVelocityAxis, World.setMov]

theorem tickBody_fieldFence (switches : Nat) (v : World) :
    (tickBody switches v).fieldFence = v.fieldFence := by
  have ho := mlAdvance_others [ML0, ML1, ML3] (tickStart v).fieldFence (tickStart v)
  simp only [World.others, Prod.mk.injEq] at ho
  rw [tickBody_eq]
  show (applySwitches switches _).fieldFence = _
  rw [applySwitches_fieldFence, bouncePaddle_fieldFence, bouncePaddle_fieldFence]
  show (mlAdvance [ML0, ML1, ML3] (tickStart v).fieldFence (tickStart v)).fieldFence = _
  rw [ho.2.2.1]
  exact (tickStart_fields v).2.1

theorem wdt_c_handler_acting_fields (switches : Nat) (w : World) (hact : w.count = 14) :
    (wdt_c_handler switches w).count = 0 ∧
    (wdt_c_handler switches w).redrawScreen = 1 ∧
    (wdt_c_handler switches w).fieldFence = w.fieldFence := by
  rw [wdt_c_handler_acting switches w hact]
  refine ⟨rfl, ?_, ?_⟩
  · show (tickBody switches _).redrawScreen = 1
    exact tickBody_redrawScreen switches _
  · show (tickBody switches _).fieldFence = _
    rw [tickBody_fieldFence]
    rfl

theorem wdt_c_handler_core_congr (switches : Nat) (w1 w2 : World) (h : w1.core = w2.core) :
    (wdt_c_handler switches w1).core = (wdt_c_handler switches w2).core := by
  have h' := h
  simp only [World.core, Prod.mk.injEq] at h'
  obtain ⟨hg, hc, hr, hf⟩ := h'
  by_cases h14 : w2.count = 14
  · have h14' : w1.count = 14 := hc.trans h14
    have e1 := wdt_c_handler_acting_game switches w1 h14'
    have e2 := wdt_c_handler_acting_game switches w2 h14
    have eg := tickGame_game_congr switches w1 w2 hg hf
    have f1 := wdt_c_handler_acting_fields switches w1 h14'
    have f2 := wdt_c_handler_acting_fields switches w2 h14
    simp only [World.core, Prod.mk.injEq]
    exact ⟨e1.trans (eg.trans e2.symm), f1.1.trans f2.1.symm, f1.2.1.trans f2.2.1.symm,
      f1.2.2.trans (hf.trans f2.2.2.symm)⟩
  · have h14' : w1.count ≠ 14 := fun e => h14 (hc ▸ e)
    rw [wdt_c_handler_quiet switches w1 h14', wdt_c_handler_quiet switches w2 h14]
    simp only [World.core, World.game, Prod.mk.injEq] at hg ⊢
    obtain ⟨hl, hm, h1, h2⟩ := hg
    simp only [hl, hm, h1, h2, hc, hr, hf, and_self]

theorem run_core (steps : List Step) (w1 w2 : World) (h : w1.core = w2.core) :
    (run steps w1).core = (runCore steps w2).core := by
  induction steps generalizing w1 w2 with
  | nil => exact h
  | cons st rest ih =>
    simp only [run, runCore, List.foldl_cons]
    apply ih
    cases st with
    | tick switches => exact wdt_c_handler_core_congr switches w1 w2 h
    | render => exact (renderPass_core w1).trans (renderCore_core_congr w1 w2 h)

set_option maxRecDepth 1000000 in
/-- C18 (failing input): from the initial state of the program, with line 0 held asserted,
after 16 rounds of 15 handler invocations and a render pass and 14 more invocations the
counter is 14 and `p2Score` is 3; the next invocation is the 17th acting tick, in which
`mlAdvance` raises `p2Score` to 4 before the table `dir` is read, so `dir[p2Score]` is
read with index 4, outside the 4-entry table (the score text of that tick is `none`). -/
theorem score_lookup_out_of_range :
    Reachable (initWorld 128 160 (abCircle 4)) scoreRunState ∧
    Reachable (initWorld 128 160 (abCircle 4)) (wdt_c_handler 0b1110 scoreRunState) ∧
    scoreRunState.count = 14 ∧ scoreRunState.p1Score = 0 ∧ scoreRunState.p2Score = 3 ∧
    (wdt_c_handler 0b1110 scoreRunState).p2Score = 4 ∧
    ¬ ((wdt_c_handler 0b1110 scoreRunState).p2Score < 4) ∧
    dir[(wdt_c_handler 0b1110 scoreRunState).p2Score]? = none ∧
    (wdt_c_handler 0b1110 scoreRunState).lcd =
      scoreRunState.lcd ++ overlayCalls ++
        [LcdCall.drawString5x7 60 150 none COLOR_RED COLOR_WHITE] := by
  have hcore : scoreRunState.core =
      (runCore scoreRunSteps (initWorld 128 160 (abCircle 4))).core :=
    run_core scoreRunSteps _ _ rfl
  have hc := hcore
  simp only [World.core, World.game, Prod.mk.injEq] at hc
  obtain ⟨⟨_, _, h1, h2⟩, hcnt, _, hf⟩ := hc
  have hcount : scoreRunState.count = 14 := hcnt.trans (by decide)
  have hp1 : scoreRunState.p1Score = 0 := h1.trans (by decide)
  have hp2 : scoreRunState.p2Score = 3 := h2.trans (by decide)
  have hgame : scoreRunState.game =
      (runCore scoreRunSteps (initWorld 128 160 (abCircle 4))).game := by
    simp only [World.core, Prod.mk.injEq] at hcore
    exact hcore.1
  have ht := tickGame_game_congr 0b1110 _ _ hgame hf
  simp only [World.game, Prod.mk.injEq] at ht
  have hq1 : (tickGame 0b1110 scoreRunState).p1Score = 0 := ht.2.2.1.trans (by decide)
  have hq2 : (tickGame 0b1110 scoreRunState).p2Score = 4 := ht.2.2.2.trans (by decide)
  have hg := wdt_c_handler_acting_game 0b1110 scoreRunState hcount
  simp only [World.game, Prod.mk.injEq] at hg
  have hlcd := wdt_c_handler_acting_lcd 0b1110 scoreRunState hcount
  rw [hq1, hq2, hp1, hp2] at hlcd
  refine ⟨⟨scoreRunSteps, rfl⟩, ⟨scoreRunSteps ++ [Step.tick 0b1110], ?_⟩, hcount, hp1, hp2,
    hg.2.2.2.trans hq2, ?_, ?_, hlcd⟩
  · simp only [run, List.foldl_append, List.foldl_cons, List.foldl_nil, step]
    rfl
  · rw [hg.2.2.2, hq2]
    decide
  · rw [hg.2.2.2, hq2]
    decide

theorem bouncePaddle_movs_ne (ball paddle : Nat) (w : World) (m : Nat) (h : m ≠ ball) :
    (bouncePaddle ball paddle w).movs m = w.movs m := by
  cases hit : cornerContact w ball paddle
  · rw [bouncePaddle_miss ball paddle w hit]
  · rw [bouncePaddle_hit ball paddle w hit]
    simp [buzzer_set_period, World.setMov, h]

theorem bouncePaddle_movs_layer (ball paddle : Nat) (w : World) (m : Nat) :
    ((bouncePaddle ball paddle w).movs m).layer = (w.movs m).layer := by
  cases hit : cornerContact w ball paddle
  · rw [bouncePaddle_miss ball paddle w hit]
  · rw [bouncePaddle_hit ball paddle w hit]
    simp only [buzzer_set_period, World.setMov]
    split_ifs with h
    · rw [h]
    · rfl

theorem applySwitches_movs_layer (switches : Nat) (w : World) (m : Nat) :
    ((applySwitches switches w).movs m).layer = (w.movs m).layer := by
  unfold applySwitches
  cases str switches 0 <;> cases str switches 1 <;> cases str switches 2 <;>
    cases str switches 3 <;>
    simp only [setVelocityAxis, World.setMov, Bool.false_eq_true, if_false, if_true,
      Bool.not_false, Bool.not_true, Bool.and_self, Bool.and_true, Bool.and_false] <;>
    split_ifs <;> simp_all

theorem paddleInvariant_congr (y0 y1 : Int) (w1 w2 : World) (h : w1.game = w2.game)
    (hi : paddleInvariant y0 y1 w2) : paddleInvariant y0 y1 w1 := by
  simp only [World.game, Prod.mk.injEq] at h
  unfold paddleInvariant at hi ⊢
  rw [h.1, h.2.1]
  exact hi

theorem mlAdvance_paddle (w : World) (fence : Region) (m a : Nat)
    (hd : ([ML0, ML1, ML3].map (fun k => (w.movs k).layer)).Nodup)
    (hm : m ∈ [ML0, ML1, ML3]) (ha : (w.movs m).layer = a)
    (hv : (w.movs m).velocity.ax1 = 0) :
    ((mlAdvance [ML0, ML1, ML3] fence w).movs m).velocity.ax1 = 0 ∧
    ((mlAdvance [ML0, ML1, ML3] fence w).layers a).posNext.ax1 = (w.layers a).posNext.ax1 := by
  obtain ⟨h1, h2⟩ := mlAdvance_local [ML0, ML1, ML3] fence w hd m hm
  rw [ha] at h2
  rw [h1, h2, mlAdvanceOne_movs, mlAdvanceOne_layers]
  simp only [if_true, ha, reflectVelocity, bouncePosition, World.layerOf, vec2Add, hv]
  constructor
  · split_ifs <;> simp
  · split_ifs <;> simp

theorem tickGame_paddleInvariant (switches : Nat) (w : World) (y0 y1 : Int)
    (h : paddleInvariant y0 y1 w) : paddleInvariant y0 y1 (tickGame switches w) := by
  obtain ⟨r0, r1, r3, v0, v1, p0, p1⟩ := h
  have hd : ([ML0, ML1, ML3].map (fun k => (w.movs k).layer)).Nodup := by
    simp only [List.map_cons, List.map_nil, r0, r1, r3]
    decide
  have a0 := mlAdvance_paddle w w.fieldFence ML0 LAYER0 hd (by decide) r0 v0
  have a1 := mlAdvance_paddle w w.fieldFence ML1 LAYER1 hd (by decide) r1 v1
  unfold tickGame paddleInvariant
  refine ⟨?_, ?_, ?_, ?_, ?_, ?_, ?_⟩
  · rw [applySwitches_movs_layer, bouncePaddle_movs_layer, bouncePaddle_movs_layer,
      mlAdvance_movs_layer, r0]
  · rw [applySwitches_movs_layer, bouncePaddle_movs_layer, bouncePaddle_movs_layer,
      mlAdvance_movs_layer, r1]
  · rw [applySwitches_movs_layer, bouncePaddle_movs_layer, bouncePaddle_movs_layer,
      mlAdvance_movs_layer, r3]
  · rw [applySwitches_ml0]
    split_ifs <;> rfl
  · rw [applySwitches_ml1]
    split_ifs <;> rfl
  · rw [(applySwitches_fields _ _).1, bouncePaddle_layers, bouncePaddle_layers, a0.2, p0]
  · rw [(applySwitches_fields _ _).1, bouncePaddle_layers, bouncePaddle_layers, a1.2, p1]

theorem wdt_c_handler_paddleInvariant (switches : Nat) (w : World) (y0 y1 : Int)
    (h : paddleInvariant y0 y1 w) : paddleInvariant y0 y1 (wdt_c_handler switches w) := by
  by_cases h14 : w.count = 14
  · exact paddleInvariant_congr y0 y1 _ _ (wdt_c_handler_acting_game switches w h14)
      (tickGame_paddleInvariant switches w y0 y1 h)
  · rw [wdt_c_handler_quiet switches w h14]
    exact h

theorem movLayerDraw_paddleInvariant (ms layers : List Nat) (w : World) (y0 y1 : Int)
    (h : paddleInvariant y0 y1 w) : paddleInvariant y0 y1 (movLayerDraw ms layers w) := by
  unfold paddleInvariant at h ⊢
  simp only [movLayerDraw_movs, movLayerDraw_layers, swapPositions_layers_iterate,
    (swapLayer_iterate_fields _ _).1]
  exact h

theorem renderPass_paddleInvariant (w : World) (y0 y1 : Int)
    (h : paddleInvariant y0 y1 w) : paddleInvariant y0 y1 (renderPass w) := by
  unfold renderPass
  split_ifs
  · exact h
  · exact movLayerDraw_paddleInvariant _ _ _ y0 y1 h

theorem run_paddleInvariant (steps : List Step) (w : World) (y0 y1 : Int)
    (h : paddleInvariant y0 y1 w) : paddleInvariant y0 y1 (run steps w) := by
  induction steps generalizing w with
  | nil => exact h
  | cons st rest ih =>
    simp only [run, List.foldl_cons]
    apply ih
    cases st with
    | tick switches => exact wdt_c_handler_paddleInvariant switches w y0 y1 h
    | render => exact renderPass_paddleInvariant w y0 y1 h

/-- C19: paddles move only horizontally.  In every state reachable from the initial state
of the program (any screen size, any ball shape) by any sequence of handler invocations,
with any switch masks, and render passes, `ml0` and `ml1` still refer to the paddle layers
`layer0` and `layer1`, the vertical velocity of both is 0, and the vertical coordinate of
each paddle layer's `posNext` is its value after initialisation; and `bouncePaddle` called
for the ball `ml3` changes no moving layer other than `ml3` and no layer. -/
theorem paddles_move_horizontally (screenWidth screenHeight : Int) (circle4 : AbShape)
    (w : World) (hr : Reachable (initWorld screenWidth screenHeight circle4) w) :
    (w.movs ML0).layer = LAYER0 ∧ (w.movs ML1).layer = LAYER1 ∧
    (w.movs ML0).velocity.ax1 = 0 ∧ (w.movs ML1).velocity.ax1 = 0 ∧
    (w.layers LAYER0).posNext.ax1 =
      ((initWorld screenWidth screenHeight circle4).layers LAYER0).posNext.ax1 ∧
    (w.layers LAYER1).posNext.ax1 =
      ((initWorld screenWidth screenHeight circle4).layers LAYER1).posNext.ax1 ∧
    (∀ (v : World) (paddle m : Nat), m ≠ ML3 →
      (bouncePaddle ML3 paddle v).movs m = v.movs m) ∧
    (∀ (v : World) (paddle : Nat), (bouncePaddle ML3 paddle v).layers = v.layers) := by
  obtain ⟨steps, rfl⟩ := hr
  have h0 : paddleInvariant
      ((initWorld screenWidth screenHeight circle4).layers LAYER0).posNext.ax1
      ((initWorld screenWidth screenHeight circle4).layers LAYER1).posNext.ax1
      (initWorld screenWidth screenHeight circle4) :=
    ⟨rfl, rfl, rfl, rfl, rfl, rfl, rfl⟩
  obtain ⟨r0, r1, _, v0, v1, p0, p1⟩ := run_paddleInvariant steps _ _ _ h0
  exact ⟨r0, r1, v0, v1, p0, p1, fun v paddle m hm => bouncePaddle_movs_ne ML3 paddle v m hm,
    fun v paddle => bouncePaddle_layers ML3 paddle v⟩

/-- Witness of C19: after 15 handler invocations with line 0 asserted and a render pass,
paddle 0 moves left with velocity (-3,0) and its layer is still pending at height 144. -/
theorem paddles_move_horizontally_witness :
    Reachable (initWorld 128 160 (abCircle 4))
      (run (List.replicate 15 (Step.tick 0b1110) ++ [Step.render])
        (initWorld 128 160 (abCircle 4))) ∧
    ((run (List.replicate 15 (Step.tick 0b1110) ++ [Step.render])
      (initWorld 128 160 (abCircle 4))).movs ML0).velocity.ax1 = 0 ∧
    ((run (List.replicate 15 (Step.tick 0b1110) ++ [Step.render])
      (initWorld 128 160 (abCircle 4))).layers LAYER0).posNext.ax1 = 144 :=
  have h := paddles_move_horizontally 128 160 (abCircle 4)
    (run (List.replicate 15 (Step.tick 0b1110) ++ [Step.render])
      (initWorld 128 160 (abCircle 4))) ⟨_, rfl⟩
  ⟨⟨_, rfl⟩, h.2.2.1, h.2.2.2.2.1⟩

end ShapeMotion
